import Mathlib

/-!
Verification development for the `xt` template-language front end
(lexer, recursive-descent parser, expression evaluator, executor).

The Go source is embedded shallowly:

* Go strings are modelled as `List Char` (runes); byte positions are
  tracked explicitly via `Char.utf8Size`, mirroring the byte-offset
  arithmetic of the Go lexer.  All inputs appearing in the claims are
  valid UTF-8, where this model coincides with Go's
  `utf8.DecodeRuneInString`-based scanning.
* The lexer's goroutine+channel is modelled as a fuel-indexed run of the
  state machine producing the `List Item` of emitted tokens, in order.
  With insufficient fuel the produced list is a prefix of the real
  stream, so "for every emitted token" statements are quantified over
  all fuels.
* Receiving from the closed token channel yields Go's zero `Item`
  (type `itemError`, empty value); the parser model reproduces this.
* `unicode.IsLetter`/`unicode.IsDigit` are modelled by their ASCII
  fragments (`Char.isAlpha`/`Char.isDigit`); every input in the claims
  is ASCII, where the two agree.
* Fallible functions return `Except`; Go functions returning a pair
  `(value, error)` that is meaningful in both components are modelled
  by an explicit pair.  A nil-interface method call (a Go panic) is the
  distinguished `ExecResult.panic`.
-/

namespace Xt

/-- `itemType` / `ItemType` is a Go integer enum (`iota`); we keep it as `Nat`
so the source's order comparison `typeMap[word] > ItemKeyword` transliterates. -/
abbrev ItemType := Nat

def ItemError : ItemType := 0
def ItemBool : ItemType := 1
def ItemChar : ItemType := 2
def ItemAssign : ItemType := 3
def ItemComparison : ItemType := 4
def ItemEOF : ItemType := 5
def ItemField : ItemType := 6
def ItemIdentifier : ItemType := 7
def ItemTagStart : ItemType := 8
def ItemLeftParen : ItemType := 9
def ItemNumber : ItemType := 10
def ItemPipe : ItemType := 11
def ItemTagEnd : ItemType := 12
def ItemRightParen : ItemType := 13
def ItemSpace : ItemType := 14
def ItemString : ItemType := 15
def ItemText : ItemType := 16
def ItemVariable : ItemType := 17
def ItemVarStart : ItemType := 18
def ItemVarEnd : ItemType := 19
def ItemKeyword : ItemType := 20
def ItemBlock : ItemType := 21
def ItemElse : ItemType := 22
def ItemElIf : ItemType := 23
def ItemEnd : ItemType := 24
def ItemIf : ItemType := 25

/-- Go `Item`: `{Typ ItemType; Pos Pos; Val string; Line int; Col int}`.
`Pos` is a byte offset.  `col` is never assigned in the lexer and stays `0`. -/
structure Item where
  typ : ItemType
  pos : Nat
  val : List Char
  line : Nat
  col : Nat
deriving DecidableEq, Repr

/-- The zero `Item`, produced by receiving from the closed token channel. -/
def zeroItem : Item := { typ := ItemError, pos := 0, val := [], line := 0, col := 0 }

/-- Byte length of a rune string (`len` of the Go string). -/
def utf8Len (l : List Char) : Nat := (l.map Char.utf8Size).sum

/-- Drop the runes covering the first `n` bytes (used to model `input[pos:]`).
All uses are at rune boundaries. -/
def byteDropChars : List Char → Nat → List Char
  | l, 0 => l
  | [], _ => []
  | c :: tl, n + 1 => byteDropChars tl (n + 1 - c.utf8Size)

/-- Take the runes covering the first `n` bytes (used to model `input[:n]`).
All uses are at rune boundaries. -/
def byteTakeChars : List Char → Nat → List Char
  | _, 0 => []
  | [], _ => []
  | c :: tl, n + 1 => c :: byteTakeChars tl (n + 1 - c.utf8Size)

/-- `input[a:b]` as runes, `a`, `b` byte offsets at rune boundaries. -/
def byteSlice (input : List Char) (a b : Nat) : List Char :=
  byteTakeChars (byteDropChars input a) (b - a)

/-- Go `isSpace`. -/
def isSpace (r : Char) : Bool := r = ' ' || r = '\t'

/-- Go `isEndOfLine`. -/
def isEndOfLine (r : Char) : Bool := r = '\r' || r = '\n'

/-- Go `isAlphaNumeric`: `r == '_' || unicode.IsLetter(r) || unicode.IsDigit(r)`.
The Unicode classes are modelled by their ASCII fragments. -/
def isAlphaNumeric (r : Char) : Bool := r = '_' || r.isAlpha || r.isDigit

/-- Number of `'\n'` runes, modelling `strings.Count(s, "\n")`. -/
def countNL (l : List Char) : Nat := (l.filter (· = '\n')).length

/-- The Go `lexer` struct.  `input` is split as the already-consumed-but-
unemitted segment `pending` (= `input[start:pos]`) and the remainder
`rest` (= `input[pos:]`); `pos`, `start`, `width` are byte counts as in Go.
The unused `name` and the never-assigned `col` are omitted. -/
structure LexState where
  pos : Nat
  start : Nat
  width : Nat
  line : Nat
  startLine : Nat
  parenDepth : Int
  pending : List Char
  rest : List Char
deriving DecidableEq, Repr

/-- `lex(name, input)` initial state. -/
def initLex (input : List Char) : LexState :=
  { pos := 0, start := 0, width := 0, line := 1, startLine := 1,
    parenDepth := 0, pending := [], rest := input }

/-- `l.emit(t)`: the emitted item (value `input[start:pos]`, position `l.pos`). -/
def mkItem (t : ItemType) (st : LexState) : Item :=
  { typ := t, pos := st.pos, val := st.pending, line := st.startLine, col := 0 }

/-- State update performed by `l.emit`. -/
def afterEmit (st : LexState) : LexState :=
  { st with start := st.pos, startLine := st.line, pending := [] }

/-- `l.errorf(...)`: an error item at `l.start` carrying the message. -/
def errItem (msg : List Char) (st : LexState) : Item :=
  { typ := ItemError, pos := st.start, val := msg, line := st.startLine, col := 0 }

/-- `l.ignore()`. -/
def ignoreF (st : LexState) : LexState :=
  { st with line := st.line + countNL st.pending,
            start := st.pos, startLine := st.line + countNL st.pending,
            pending := [] }

/-- `l.next()` when the next rune is `c` with remainder `tl`. -/
def consumeC (c : Char) (tl : List Char) (st : LexState) : LexState :=
  { st with rest := tl, pending := st.pending ++ [c],
            pos := st.pos + c.utf8Size, width := c.utf8Size,
            line := st.line + (if c = '\n' then 1 else 0) }

/-- `l.accept(valid)`: consume the next rune if it is in `valid`
(`next` followed by `backup` on mismatch nets to no state change). -/
def acceptF (valid : List Char) (st : LexState) : Bool × LexState :=
  match st.rest with
  | [] => (false, st)
  | c :: tl => if c ∈ valid then (true, consumeC c tl st) else (false, st)

/-- `l.acceptRun(valid)` — structural worker over `st.rest` (the second
argument always equals `st.rest`). -/
def acceptRunGo (valid : List Char) : List Char → LexState → LexState
  | [], st => st
  | c :: tl, st =>
    if c ∈ valid then acceptRunGo valid tl (consumeC c tl st) else st

/-- `l.acceptRun(valid)`. -/
def acceptRunF (valid : List Char) (st : LexState) : LexState :=
  acceptRunGo valid st.rest st

/-- Advance `n` bytes without rune scanning (`l.pos += n`), as the four
delimiter states do; the skipped delimiters are ASCII. -/
def advanceBytes (n : Nat) (st : LexState) : LexState :=
  { st with pending := st.pending ++ byteTakeChars st.rest n,
            rest := byteDropChars st.rest n,
            pos := st.pos + n }

/-- Does `input[pos:]` start with the two-rune ASCII delimiter `a b`
(models `strings.HasPrefix` on the 2-byte delimiters)? -/
def startsWith2 (a b : Char) (l : List Char) : Bool :=
  match l with
  | x :: y :: _ => x = a && y = b
  | _ => false

/-- The state functions of the lexer (`stateFn` values). -/
inductive LexFn where
  | lexText | lexTagStart | lexTagEnd | lexVarStart | lexVarEnd
  | lexInsideTag | lexNumber | lexQuote | lexSingleQuote | lexIdentifier
deriving DecidableEq, Repr

/-- One state-function invocation returns the items it sent on the channel
and the next state (`none` = the returned `nil` `stateFn`, ending `run`). -/
abbrev LexOut := List Item × Option (LexFn × LexState)

/-- The tail of Go `lexText`'s delimiter branch: emit the pending text when
nonempty (`l.pos > l.start`), `l.ignore()`, and hand over to `nextFunc`. -/
def lexTextEmitThen (f : LexFn) (st1 : LexState) : LexOut :=
  if st1.pos > st1.start then
    let st2 := { st1 with line := st1.line + countNL st1.pending }
    ([mkItem ItemText st2], some (f, ignoreF (afterEmit st2)))
  else
    ([], some (f, ignoreF st1))

/-- Go `lexText`.  Scans to the next `'{'`; '{' is a single ASCII byte, so
`strings.IndexRune` agrees with the first `'{'` rune.  The delimiter is
determined by `strings.HasPrefix` checks; note the Go order: an invalid
`'{'`-sequence errors out before the preceding text is emitted. -/
def lexTextStep (st0 : LexState) : LexOut :=
  let st := { st0 with width := 0 }
  let pre := st.rest.takeWhile (· ≠ '{')
  match st.rest.dropWhile (· ≠ '{') with
  | [] =>
    -- no '{': l.pos = len(input); emit trailing text, then EOF
    let st1 := { st with pending := st.pending ++ st.rest, rest := [],
                         pos := st.pos + utf8Len st.rest }
    if st1.pos > st1.start then
      let st2 := { st1 with line := st1.line + countNL st1.pending }
      ([mkItem ItemText st2, mkItem ItemEOF (afterEmit st2)], none)
    else
      ([mkItem ItemEOF st1], none)
  | '{' :: tl2 =>
    let st1 := { st with pending := st.pending ++ pre, rest := '{' :: tl2,
                         pos := st.pos + utf8Len pre }
    if startsWith2 '{' '%' st1.rest then lexTextEmitThen .lexTagStart st1
    else if startsWith2 '{' '{' st1.rest then lexTextEmitThen .lexVarStart st1
    else ([errItem "unexpected sequence, expected tag or variable start".data st1], none)
  | _ :: _ => ([], none)  -- unreachable: dropWhile (· ≠ '{') starts with '{'

/-- Go `lexTagStart`. -/
def lexTagStartStep (st : LexState) : LexOut :=
  let st1 := advanceBytes 2 st
  ([mkItem ItemTagStart st1], some (.lexInsideTag, afterEmit st1))

/-- Go `lexTagEnd`. -/
def lexTagEndStep (st : LexState) : LexOut :=
  let st1 := advanceBytes 2 st
  ([mkItem ItemTagEnd st1], some (.lexText, afterEmit st1))

/-- Go `lexVarStart`. -/
def lexVarStartStep (st : LexState) : LexOut :=
  let st1 := advanceBytes 2 st
  ([mkItem ItemVarStart st1], some (.lexInsideTag, afterEmit st1))

/-- Go `lexVarEnd`. -/
def lexVarEndStep (st : LexState) : LexOut :=
  let st1 := advanceBytes 2 st
  ([mkItem ItemVarEnd st1], some (.lexText, afterEmit st1))

/-- Go `lexInsideTag`.  In the error branches Go consumes the offending rune
before calling `errorf`; since `errorf` reads only `start`/`startLine` the
emitted item is identical without the consumption, so we match directly. -/
def lexInsideTagStep (st : LexState) : LexOut :=
  if startsWith2 '%' '}' st.rest then
    if st.parenDepth > 0 then ([errItem "missing right paren".data st], none)
    else ([], some (.lexTagEnd, st))
  else if startsWith2 '}' '}' st.rest then
    if st.parenDepth > 0 then ([errItem "missing right paren".data st], none)
    else ([], some (.lexVarEnd, st))
  else
    match st.rest with
    | [] => ([errItem "unclosed action".data st], none)
    | c :: tl =>
      if isEndOfLine c then ([errItem "unclosed action".data st], none)
      else if isSpace c then
        ([], some (.lexInsideTag, ignoreF (consumeC c tl st)))
      else if c = '!' then
        let st1 := consumeC c tl st
        match tl with
        | [] => ([errItem "expected = after !".data st], none)
        | d :: tl2 =>
          if d = '=' then
            let st2 := consumeC d tl2 st1
            ([mkItem ItemComparison st2], some (.lexInsideTag, afterEmit st2))
          else ([errItem "expected = after !".data st], none)
      else if c = '>' || c = '<' then
        let st1 := consumeC c tl st
        match tl with
        | [] => ([mkItem ItemComparison st1], some (.lexInsideTag, afterEmit st1))
        | d :: tl2 =>
          if d = '=' then
            let st2 := consumeC d tl2 st1
            ([mkItem ItemComparison st2], some (.lexInsideTag, afterEmit st2))
          else ([mkItem ItemComparison st1], some (.lexInsideTag, afterEmit st1))
      else if c = '=' then
        let st1 := consumeC c tl st
        match tl with
        | [] => ([mkItem ItemAssign st1], some (.lexInsideTag, afterEmit st1))
        | d :: tl2 =>
          if d = '=' then
            let st2 := consumeC d tl2 st1
            ([mkItem ItemComparison st2], some (.lexInsideTag, afterEmit st2))
          else ([mkItem ItemAssign st1], some (.lexInsideTag, afterEmit st1))
      else if c = '|' then
        let st1 := consumeC c tl st
        ([mkItem ItemPipe st1], some (.lexInsideTag, afterEmit st1))
      else if c = '"' then
        ([], some (.lexQuote, consumeC c tl st))
      else if c = '\'' then
        ([], some (.lexSingleQuote, consumeC c tl st))
      else if c = '+' || c = '-' || ('0' ≤ c && c ≤ '9') then
        ([], some (.lexNumber, st))  -- next+backup nets to no change
      else if isAlphaNumeric c then
        ([], some (.lexIdentifier, st))
      else if c = '(' then
        let st1 := consumeC c tl st
        ([mkItem ItemLeftParen st1],
         some (.lexInsideTag, { afterEmit st1 with parenDepth := st1.parenDepth + 1 }))
      else if c = ')' then
        let st1 := consumeC c tl st
        let tok := mkItem ItemRightParen st1
        let st2 : LexState := { afterEmit st1 with parenDepth := st1.parenDepth - 1 }
        if st2.parenDepth < 0 then
          ([tok, errItem "unexpected right paren".data st2], none)
        else
          ([tok], some (.lexInsideTag, st2))
      else if c.toNat ≤ 127 && 32 ≤ c.toNat && c.toNat ≤ 126 then
        -- r <= unicode.MaxASCII && unicode.IsPrint(r)
        let st1 := consumeC c tl st
        ([mkItem ItemChar st1], some (.lexInsideTag, afterEmit st1))
      else
        ([errItem "unrecognized character in action".data st], none)

def decDigits : List Char := "0123456789_".data
def hexDigits : List Char := "0123456789abcdefABCDEF_".data
def octDigits : List Char := "01234567_".data
def binDigits : List Char := "01_".data

/-- The tail of Go `lexNumber` after the digit alphabet is fixed: the
main digit run, the optional fraction, the decimal exponent (`e`/`E`,
only when scanning decimal) or hex binary exponent (`p`/`P`), then the
`Number` emission. -/
def lexNumberTail (digits : List Char) (stp : LexState) : LexOut :=
  match acceptF ['.'] (acceptRunF digits stp) with
  | (dot, std) =>
  let st3 := if dot then acceptRunF digits std else std
  let st4 :=
    if digits.length = 10 + 1 then
      match acceptF ['e', 'E'] st3 with
      | (true, sa) => acceptRunF "0123456789_".data (acceptF ['+', '-'] sa).2
      | (false, sa) => sa
    else st3
  let st5 :=
    if digits.length = 16 + 6 + 1 then
      match acceptF ['p', 'P'] st4 with
      | (true, sa) => acceptRunF "0123456789_".data (acceptF ['+', '-'] sa).2
      | (false, sa) => sa
    else st4
  ([mkItem ItemNumber st5], some (.lexInsideTag, afterEmit st5))

/-- Go `lexNumber`: optional sign, then the `0x`/`0o`/`0b` base prefix
selects the digit alphabet, then `lexNumberTail`. -/
def lexNumberStep (st0 : LexState) : LexOut :=
  match acceptF ['+', '-'] st0 with
  | (_, st1) =>
  match acceptF ['0'] st1 with
  | (z, stz) =>
  match
    (if z then
      match acceptF ['x', 'X'] stz with
      | (true, sa) => (hexDigits, sa)
      | (false, sa) =>
      match acceptF ['o', 'O'] sa with
      | (true, sb) => (octDigits, sb)
      | (false, sb) =>
      match acceptF ['b', 'B'] sb with
      | (true, sc) => (binDigits, sc)
      | (false, sc) => (decDigits, sc)
    else (decDigits, stz) : List Char × LexState) with
  | (digits, stp) => lexNumberTail digits stp

/-- Go `lexQuote`/`lexSingleQuote` loop for quote rune `q` — structural
worker over `st.rest` (the list argument always equals `st.rest`). -/
def lexQuoteGo (q : Char) : List Char → LexState → LexOut
  | [], st => ([errItem "unterminated quoted string".data st], none)
  | c :: tl, st =>
    if c = '\\' then
      match tl with
      | [] => ([errItem "unterminated quoted string".data st], none)
      | r :: tl2 =>
        if r = '\n' then ([errItem "unterminated quoted string".data st], none)
        else lexQuoteGo q tl2 (consumeC r tl2 (consumeC c tl st))
    else if c = '\n' then ([errItem "unterminated quoted string".data st], none)
    else if c = q then
      let st1 := consumeC c tl st
      ([mkItem ItemString st1], some (.lexInsideTag, afterEmit st1))
    else
      lexQuoteGo q tl (consumeC c tl st)

/-- Go `lexQuote` (the `q`-delimited loop, shared with `lexSingleQuote`). -/
def lexQuoteLoop (q : Char) (st : LexState) : LexOut :=
  lexQuoteGo q st.rest st

/-- Go `typeMap` lookup (map miss yields the zero `itemType`, i.e. `ItemError`). -/
def keywordType (w : List Char) : ItemType :=
  if w = "block".data then ItemBlock
  else if w = "if".data then ItemIf
  else if w = "else".data then ItemElse
  else if w = "elif".data then ItemElIf
  else ItemError

/-- The word classification performed by `lexIdentifier` at a terminating
space.  (`word[0] == '.'` can never hold — all word runes are alphanumeric —
but is kept; `headD` stands in for Go's `word[0]`, whose word is nonempty on
every reachable path.) -/
def classifyWord (w : List Char) : ItemType :=
  if keywordType w > ItemKeyword then keywordType w
  else if w.headD ' ' = '.' then ItemField
  else if w = "true".data || w = "false".data then ItemBool
  else ItemIdentifier

/-- Go `lexIdentifier` loop — structural worker over `st.rest` (the list
argument always equals `st.rest`). -/
def lexIdentifierGo : List Char → LexState → LexOut
  | [], st => ([errItem "bad character".data st], none)
  | c :: tl, st =>
    if isSpace c then
      ([mkItem (classifyWord st.pending) st], some (.lexInsideTag, afterEmit st))
    else if isAlphaNumeric c then
      lexIdentifierGo tl (consumeC c tl st)
    else
      ([errItem "bad character".data st], none)

/-- Go `lexIdentifier`: absorb alphanumerics; a space/tab ends the word
(`backup` nets out), anything else — newline, `%`, end of input … — is
`errorf("bad character %#U", r)`. -/
def lexIdentifierStep (st : LexState) : LexOut :=
  lexIdentifierGo st.rest st

/-- Dispatch on the current state function. -/
def stepLex : LexFn → LexState → LexOut
  | .lexText, st => lexTextStep st
  | .lexTagStart, st => lexTagStartStep st
  | .lexTagEnd, st => lexTagEndStep st
  | .lexVarStart, st => lexVarStartStep st
  | .lexVarEnd, st => lexVarEndStep st
  | .lexInsideTag, st => lexInsideTagStep st
  | .lexNumber, st => lexNumberStep st
  | .lexQuote, st => lexQuoteLoop '"' st
  | .lexSingleQuote, st => lexQuoteLoop '\'' st
  | .lexIdentifier, st => lexIdentifierStep st

/-- Go `run`: iterate the state machine, gathering the emitted items in
channel order.  `fuel` bounds the number of state-function invocations; a
run that exhausts its fuel yields a prefix of the real token stream. -/
def runLex : Nat → LexFn → LexState → List Item
  | 0, _, _ => []
  | fuel + 1, f, st =>
    match stepLex f st with
    | (out, none) => out
    | (out, some (f', st')) => out ++ runLex fuel f' st'

/-! ## AST nodes

The Go `Node` interface with its closed set of implementations
(`parser.go`, `tagif.go`, `tagblock.go`).  All variants embed `Base`,
whose `Start` field is the first constructor argument here.  `nilNode`
is the nil interface value a Go `Node` variable can hold (the parser's
named return `n` starts out nil); calling `Execute` on it panics. -/

inductive Node where
  | TextValue (start : Nat) (text : List Char)
  | StringValue (start : Nat) (val : List Char)
  | IntValue (start : Nat) (val : Int)
  | Comparison (start : Nat) (typ : List Char)
  | Identifier (start : Nat) (name : List Char)
  | BlockStmt (start : Nat) (name : List Char) (arguments : List Node) (body : List Node)
  | IfStmt (start : Nat) (expression : List Node) (body : List Node) (elseNode : Option Node)
  | nilNode

/-- `Base.Position`.  (`nilNode.position` would panic in Go; it is never
called on nil in this development.) -/
def Node.position : Node → Nat
  | .TextValue s _ => s
  | .StringValue s _ => s
  | .IntValue s _ => s
  | .Comparison s _ => s
  | .Identifier s _ => s
  | .BlockStmt s _ _ _ => s
  | .IfStmt s _ _ _ => s
  | .nilNode => 0

/-! ## strconv (Go standard library fragments used by the source) -/

def digitsOnly (l : List Char) : Bool := l.all Char.isDigit

def natOfDigits (l : List Char) : Nat :=
  l.foldl (fun a c => 10 * a + (c.toNat - '0'.toNat)) 0

def maxInt64 : Int := 2 ^ 63 - 1
def minInt64 : Int := -(2 ^ 63)

/-- Go `strconv.Atoi` (= `ParseInt` base 10, 64-bit): optional sign, decimal
digits; returns `(0, err)` on syntax errors and the clamped extremum with an
error on range overflow. -/
def atoiGo (s : List Char) : Int × Bool :=
  let sgn : Bool × List Char :=
    match s with
    | '+' :: tl => (false, tl)
    | '-' :: tl => (true, tl)
    | _ => (false, s)
  let neg := sgn.1
  let ds := sgn.2
  if ds = [] || ¬ digitsOnly ds then (0, true)
  else
    let v : Int := (natOfDigits ds : Int)
    if neg then
      if -v < minInt64 then (minInt64, true) else (-v, false)
    else
      if v > maxInt64 then (maxInt64, true) else (v, false)

/-- The lexemes of Go `strconv.ParseBool`'s first switch case. -/
def trueLexemes : List (List Char) :=
  ["1".data, "t".data, "T".data, "true".data, "TRUE".data, "True".data]

/-- The lexemes of Go `strconv.ParseBool`'s second switch case. -/
def falseLexemes : List (List Char) :=
  ["0".data, "f".data, "F".data, "false".data, "FALSE".data, "False".data]

/-- Go `strconv.ParseBool` (a two-case switch over the twelve lexemes). -/
def parseBoolGo (s : List Char) : Except (List Char) Bool :=
  if s ∈ trueLexemes then .ok true
  else if s ∈ falseLexemes then .ok false
  else .error "invalid syntax".data

/-- Go `getNumber` (parser.go): the `'.'`-containing (float) branch is an
empty statement in the source, so everything funnels into `strconv.Atoi`. -/
def getNumber (t : Item) : Except (List Char) Node :=
  let r := atoiGo t.val
  if r.2 then .error "invalid integer".data
  else .ok (Node.IntValue t.pos r.1)

/-! ## Parser (`Tree`)

The `[5]Item`/`peekCount` lookahead buffer is a stack (`items[peekCount-1]`
is the top); `slot0` tracks `items[0]`, which `newIfStmt` reads directly for
its start item.  `Next` on the closed channel receives the zero `Item`.
The tag registry is empty in every scenario the claims exercise (`NewTree`
registers nothing), so `newTag` always fails its lookup. -/

structure PState where
  pending : List Item
  stream : List Item
  slot0 : Item
deriving DecidableEq, Repr

/-- `Tree.Next`. -/
def pNext (st : PState) : Item × PState :=
  match st.pending with
  | t :: ts => (t, { st with pending := ts })
  | [] =>
    match st.stream with
    | i :: is2 => (i, { st with stream := is2, slot0 := i })
    | [] => (zeroItem, { st with slot0 := zeroItem })

/-- `Tree.Peek`. -/
def pPeek (st : PState) : Item × PState :=
  match st.pending with
  | t :: _ => (t, st)
  | [] =>
    match st.stream with
    | i :: is2 => (i, { st with pending := [i], stream := is2, slot0 := i })
    | [] => (zeroItem, { st with pending := [zeroItem], slot0 := zeroItem })

/-- `Tree.backup` (writes `items[peekCount]`, which is `items[0]` when the
buffer is empty). -/
def pBackup (i : Item) (st : PState) : PState :=
  match st.pending with
  | [] => { st with pending := [i], slot0 := i }
  | ps => { st with pending := i :: ps }

/-- `Tree.ConsumeUntil` (inclusive; spins on the zero item if the stream is
exhausted before a matching item, hence the fuel). -/
def pConsumeUntil : Nat → ItemType → PState → Option PState
  | 0, _, _ => none
  | fuel + 1, it, st =>
    let (tok, st1) := pNext st
    if tok.typ = ItemEOF || tok.typ = it then some st1
    else pConsumeUntil fuel it st1

/-- Results of a fuel-bounded parser function: `none` = out of fuel (the Go
code would still be looping), otherwise Go's `(value, error)`. -/
abbrev PRes (α : Type) := Option (Except (List Char) α)

mutual

/-- `Tree.parse`: the top-level loop over `Root`. -/
def parseLoop : Nat → PState → List Node → PRes (List Node × PState)
  | 0, _, _ => none
  | fuel + 1, st, acc =>
    let (pk, st1) := pPeek st
    if pk.typ = ItemEOF then some (.ok (acc, st1))
    else
      let (token, st2) := pNext st1
      if token.typ = ItemText then
        parseLoop fuel st2 (acc ++ [Node.TextValue token.pos token.val])
      else if token.typ = ItemTagStart then
        match tagF fuel st2 with
        | none => none
        | some (.error e) => some (.error e)
        | some (.ok (n, st3)) => parseLoop fuel st3 (acc ++ [n])
      else some (.error "expected text or tag".data)

/-- `Tree.tag`. -/
def tagF : Nat → PState → PRes (Node × PState)
  | 0, _ => none
  | fuel + 1, st =>
    let (tagname, st1) := pNext st
    if tagname.typ = ItemBlock then newBlockStmtF fuel st1
    else if tagname.typ = ItemIf then newIfStmtF fuel st1
    else if tagname.typ = ItemIdentifier then
      -- newTag: registry lookup fails (no tags registered in any claim)
      some (.error ("unknown tag ".data ++ tagname.val))
    else some (.error ("unknown tag ".data ++ tagname.val))

/-- `newIfStmt`: the expression scan up to `%}`.  `curN` threads the Go
named return `n` (the last node assigned), which the body loop's untyped
fall-through appends. -/
def ifExprLoop : Nat → PState → List Node → Node →
    PRes (List Node × Node × PState)
  | 0, _, _, _ => none
  | fuel + 1, st, acc, curN =>
    let (token, st1) := pNext st
    if token.typ = ItemTagEnd then some (.ok (acc, curN, st1))
    else if token.typ = ItemEOF then
      some (.error "expected end of tag, got EOF".data)
    else if token.typ = ItemString then
      let n := Node.StringValue token.pos token.val
      ifExprLoop fuel st1 (acc ++ [n]) n
    else if token.typ = ItemNumber then
      match getNumber token with
      | .error e => some (.error e)
      | .ok n => ifExprLoop fuel st1 (acc ++ [n]) n
    else if token.typ = ItemComparison then
      let n := Node.Comparison token.pos token.val
      ifExprLoop fuel st1 (acc ++ [n]) n
    else if token.typ = ItemIdentifier then
      let n := Node.Identifier token.pos token.val
      ifExprLoop fuel st1 (acc ++ [n]) n
    else some (.error "unexpected token in expression".data)

/-- `newIfStmt`: the body loop.  Note the Go `switch` has no default: any
other token type (e.g. the zero `Item` from a closed channel, or `{{`)
falls through to `body = append(body, n)` with the stale `n`. -/
def ifBodyLoop : Nat → PState → List Node → Node → Option Node → Option Node →
    PRes (List Node × Option Node × Option Node × PState)
  | 0, _, _, _, _, _ => none
  | fuel + 1, st, body, curN, elseIfNode, elseNode =>
    let (token, st1) := pNext st
    if token.typ = ItemEOF then
      -- loop exit on EOF, then `if token.Typ == ItemEOF` fails the parse
      some (.error "expected endif-tag, got end-of-file".data)
    else if token.typ = ItemText then
      let n := Node.TextValue token.pos token.val
      ifBodyLoop fuel st1 (body ++ [n]) n elseIfNode elseNode
    else if token.typ = ItemTagStart then
      let (tagname, st2) := pPeek st1
      if tagname.typ = ItemElIf then
        match newIfStmtF fuel st2 with
        | none => none
        | some (.error e) => some (.error e)
        | some (.ok (nd, st3)) =>
          let st4 := pBackup token (pBackup
            { typ := ItemIdentifier, pos := 0, val := "endif".data, line := 0, col := 0 }
            (pBackup { typ := ItemTagEnd, pos := 0, val := [], line := 0, col := 0 } st3))
          ifBodyLoop fuel st4 body curN (some nd) elseNode
      else if tagname.typ = ItemElse then
        match newElseStmtF fuel st2 with
        | none => none
        | some (.error e) => some (.error e)
        | some (.ok (nd, st3)) =>
          let st4 := pBackup token (pBackup
            { typ := ItemIdentifier, pos := 0, val := "endif".data, line := 0, col := 0 }
            (pBackup { typ := ItemTagEnd, pos := 0, val := [], line := 0, col := 0 } st3))
          ifBodyLoop fuel st4 body curN elseIfNode (some nd)
      else if tagname.typ = ItemIdentifier && tagname.val = "endif".data then
        match pConsumeUntil fuel ItemTagEnd st2 with
        | none => none
        | some st3 => some (.ok (body, elseIfNode, elseNode, st3))
      else
        match tagF fuel st2 with
        | none => none
        | some (.error e) => some (.error e)
        | some (.ok (nd, st3)) =>
          ifBodyLoop fuel st3 (body ++ [nd]) nd elseIfNode elseNode
    else
      ifBodyLoop fuel st1 (body ++ [curN]) curN elseIfNode elseNode

/-- `Tree.newIfStmt` (tagif.go), including the elif→else desugaring of the
collected `elseIfNode`/`elseNode`. -/
def newIfStmtF : Nat → PState → PRes (Node × PState)
  | 0, _ => none
  | fuel + 1, st =>
    let start := st.slot0
    match ifExprLoop fuel st [] Node.nilNode with
    | none => none
    | some (.error e) => some (.error e)
    | some (.ok (expression, curN, st1)) =>
      match ifBodyLoop fuel st1 [] curN none none with
      | none => none
      | some (.error e) => some (.error e)
      | some (.ok (body, elseIfNode, elseNode, st2)) =>
        let elsePart : Option Node :=
          match elseIfNode with
          | none => elseNode
          | some eIf =>
            let elseBody :=
              match elseNode with
              | none => [eIf]
              | some e => [eIf, e]
            some (Node.BlockStmt eIf.position [] [] elseBody)
        some (.ok (Node.IfStmt start.pos expression body elsePart, st2))

/-- `newElseStmt`'s body loop (exits silently at EOF — Go has no check). -/
def elseBodyLoop : Nat → PState → List Node → Node → PRes (List Node × PState)
  | 0, _, _, _ => none
  | fuel + 1, st, body, curN =>
    let (token, st1) := pNext st
    if token.typ = ItemEOF then some (.ok (body, st1))
    else if token.typ = ItemText then
      let n := Node.TextValue token.pos token.val
      elseBodyLoop fuel st1 (body ++ [n]) n
    else if token.typ = ItemTagStart then
      let (tagname, st2) := pPeek st1
      if tagname.typ = ItemIdentifier && tagname.val = "endif".data then
        match pConsumeUntil fuel ItemTagEnd st2 with
        | none => none
        | some st3 => some (.ok (body, st3))
      else
        match tagF fuel st2 with
        | none => none
        | some (.error e) => some (.error e)
        | some (.ok (nd, st3)) => elseBodyLoop fuel st3 (body ++ [nd]) nd
    else
      elseBodyLoop fuel st1 (body ++ [curN]) curN

/-- `Tree.newElseStmt` (tagif.go). -/
def newElseStmtF : Nat → PState → PRes (Node × PState)
  | 0, _ => none
  | fuel + 1, st =>
    let (start, st1) := pNext st
    let (token, st2) := pNext st1
    if token.typ ≠ ItemTagEnd then
      some (.error "unexpected extra arguments to else statement".data)
    else
      match elseBodyLoop fuel st2 [] Node.nilNode with
      | none => none
      | some (.error e) => some (.error e)
      | some (.ok (body, st3)) =>
        some (.ok (Node.BlockStmt start.pos [] [] body, st3))

/-- `newBlockStmt`'s body loop (exits silently at EOF — the known gap). -/
def blockBodyLoop : Nat → PState → List Node → Node → PRes (List Node × PState)
  | 0, _, _, _ => none
  | fuel + 1, st, body, curN =>
    let (token, st1) := pNext st
    if token.typ = ItemEOF then some (.ok (body, st1))
    else if token.typ = ItemText then
      let n := Node.TextValue token.pos token.val
      blockBodyLoop fuel st1 (body ++ [n]) n
    else if token.typ = ItemTagStart then
      let (tagname, st2) := pPeek st1
      if tagname.typ = ItemIdentifier && tagname.val = "endblock".data then
        match pConsumeUntil fuel ItemTagEnd st2 with
        | none => none
        | some st3 => some (.ok (body, st3))
      else
        match tagF fuel st2 with
        | none => none
        | some (.error e) => some (.error e)
        | some (.ok (nd, st3)) => blockBodyLoop fuel st3 (body ++ [nd]) nd
    else
      blockBodyLoop fuel st1 (body ++ [curN]) curN

/-- `Tree.newBlockStmt` (tagblock.go). -/
def newBlockStmtF : Nat → PState → PRes (Node × PState)
  | 0, _ => none
  | fuel + 1, st =>
    let (blockName, st1) := pNext st
    if blockName.typ ≠ ItemIdentifier then
      some (.error "expected identifier".data)
    else
      let (t2, st2) := pNext st1
      if t2.typ ≠ ItemTagEnd then
        some (.error "expected end tag".data)
      else
        match blockBodyLoop fuel st2 [] Node.nilNode with
        | none => none
        | some (.error e) => some (.error e)
        | some (.ok (body, st3)) =>
          some (.ok (Node.BlockStmt blockName.pos blockName.val [] body, st3))

end

/-- `Tree.Parse`: lex the input (the goroutine's full emission for the given
lexer fuel), then run `parse`.  Returns the `Root` node list on success. -/
def ParseGo (lexFuel pFuel : Nat) (input : List Char) :
    Option (Except (List Char) (List Node)) :=
  let stream := runLex lexFuel .lexText (initLex input)
  match parseLoop pFuel { pending := [], stream := stream, slot0 := zeroItem } [] with
  | none => none
  | some (.error e) => some (.error e)
  | some (.ok (root, _)) => some (.ok root)

/-! ## Executor (`main.go` second unit, `tagblock.go`)

`Execute` has exactly two implementations: the `Base` stub, returning
`("", nil)` for every node kind without an override (all of them except
`BlockStmt`), and `BlockStmt.Execute`, which is `ExecuteNodes` over the
body.  Calling `Execute` on a nil `Node` interface value panics. -/

inductive ExecResult where
  | panic
  | ret (s : List Char) (err : Option (List Char))
deriving DecidableEq, Repr

mutual

def execute : Node → ExecResult
  | .BlockStmt _ _ _ body => ExecuteNodes body
  | .nilNode => .panic
  | _ => .ret [] none

/-- `ExecuteNodes` over the actual node type.  The `strings.Builder`
concatenation and the `return "", err` short-circuit are mirrored. -/
def ExecuteNodes : List Node → ExecResult
  | [] => .ret [] none
  | n :: rest =>
    match execute n with
    | .panic => .panic
    | .ret _ (some e) => .ret [] (some e)
    | .ret v none =>
      match ExecuteNodes rest with
      | .panic => .panic
      | .ret _ (some e) => .ret [] (some e)
      | .ret acc none => .ret (v ++ acc) none

end

/-- `ExecuteNodes` abstracted over the `Node` interface: the loop only
calls `nodes[idx].Execute(ctx)`, so its behaviour is a function of the
nodes' execution results alone. -/
def executeNodesAsResults : List ExecResult → ExecResult
  | [] => .ret [] none
  | r :: rest =>
    match r with
    | .panic => .panic
    | .ret _ (some e) => .ret [] (some e)
    | .ret v none =>
      match executeNodesAsResults rest with
      | .panic => .panic
      | .ret _ (some e) => .ret [] (some e)
      | .ret acc none => .ret (v ++ acc) none

/-! ## Expression evaluator (`unnamed/part_002`) -/

/-- Go `exprVal`: at most one of the pointer fields is set; only the `.Val`
payloads are ever read, so the fields store those.  (`Float` is declared
`*IntValue` in the source and is never assigned.) -/
structure exprVal where
  iVal : Option Int := none
  fVal : Option Int := none
  sVal : Option (List Char) := none
  idVal : Option (List Char) := none
deriving DecidableEq, Repr

/-- Go `compareEqual`. -/
def compareEqual (lhs rhs : exprVal) : Bool :=
  match lhs.iVal with
  | some li =>
    match rhs.iVal with
    | some ri => li = ri
    | none =>
      match rhs.sVal with
      | some s => li = (atoiGo s).1  -- rv, _ := strconv.Atoi(...): error ignored
      | none => false
  | none => false

/-- Go `handleComparison`: only `"=="` has a case; everything else returns
`false` (with no error). -/
def handleComparison (comparison : List Char) (lhs rhs : exprVal) : Bool :=
  if comparison = "==".data then compareEqual lhs rhs else false

/-- Go `eval1Part` (called with a 1-element expression). -/
def eval1Part (expression : List Node) : Except (List Char) Bool :=
  match expression with
  | [node] =>
    match node with
    | .IntValue _ v => .ok (v ≠ 0)
    | .StringValue _ s => parseBoolGo s
    | _ => .error "unexpected node".data
  | _ => .error "unexpected node".data  -- unreachable: only called at length 1

/-- Go `eval3Parts` (called with a 3-element expression). -/
def eval3Parts (expression : List Node) : Except (List Char) Bool :=
  match expression with
  | [a, b, c] =>
    match b with
    | .Comparison _ cmpType =>
      let classify : Node → Option exprVal := fun n =>
        match n with
        | .IntValue _ v => some { iVal := some v }
        | .StringValue _ s => some { sVal := some s }
        | .Identifier _ name => some { idVal := some name }
        | _ => none
      match classify a with
      | none => .error "unexpected node".data
      | some lhs =>
        match classify c with
        | none => .error "unexpected node".data
        | some rhs => .ok (handleComparison cmpType lhs rhs)
    | _ => .error "expected comparison".data
  | _ => .error "unexpected node".data  -- unreachable: only called at length 3

/-- Go `EvaluateExpression`: one part (the and/or split is a FIXME); note the
`switch` has no case for length ≥ 4, so those return `(false, nil)`. -/
def EvaluateExpression (expression : List Node) : Except (List Char) Bool :=
  match expression.length with
  | 0 => .error "emtpy expression".data
  | 1 => eval1Part expression
  | 2 => .error "support for not is not implemented in expressions".data
  | 3 => eval3Parts expression
  | _ + 4 => .ok false

def isOperandNode : Node → Bool
  | .IntValue _ _ => true
  | .StringValue _ _ => true
  | .Identifier _ _ => true
  | _ => false

def isIntNode : Node → Bool
  | .IntValue _ _ => true
  | _ => false

def isStringNode : Node → Bool
  | .StringValue _ _ => true
  | _ => false

/-! ## Concrete templates appearing in the claims, with their token streams
(as emitted by `runLex`) and parse results. -/

/-- `{% if A %}1{% elif B %}2{% endif %}` (claim C1). -/
def c1Input : List Char := "\x7b% if A %\x7d1\x7b% elif B %\x7d2\x7b% endif %\x7d".data

/-- `{% if 1 %}{` — a lexical error inside an if-body (claim C4). -/
def c4Input : List Char := "\x7b% if 1 %\x7d\x7b".data

/-- The token stream of `c4Input`: the lexical error follows the if-tag. -/
def c4Stream : List Item :=
  [⟨ItemTagStart, 2, "\x7b%".data, 1, 0⟩, ⟨ItemIf, 5, "if".data, 1, 0⟩,
   ⟨ItemNumber, 7, "1".data, 1, 0⟩, ⟨ItemTagEnd, 10, "%\x7d".data, 1, 0⟩,
   ⟨ItemError, 10, "unexpected sequence, expected tag or variable start".data, 1, 0⟩]

/-- `{% if 1 == 1 %}A{% else %}B{% endif %}` (claim C5, equal literals). -/
def c5EqInput : List Char := "\x7b% if 1 == 1 %\x7dA\x7b% else %\x7dB\x7b% endif %\x7d".data

/-- `{% if 1 == 2 %}A{% else %}B{% endif %}` (claim C5, unequal literals). -/
def c5NeInput : List Char := "\x7b% if 1 == 2 %\x7dA\x7b% else %\x7dB\x7b% endif %\x7d".data

def c5Stream (second : Int) (secondVal : List Char) : List Item :=
  [⟨ItemTagStart, 2, "\x7b%".data, 1, 0⟩, ⟨ItemIf, 5, "if".data, 1, 0⟩,
   ⟨ItemNumber, 7, "1".data, 1, 0⟩, ⟨ItemComparison, 10, "==".data, 1, 0⟩,
   ⟨ItemNumber, 12, secondVal, 1, 0⟩, ⟨ItemTagEnd, 15, "%\x7d".data, 1, 0⟩,
   ⟨ItemText, 16, "A".data, 1, 0⟩, ⟨ItemTagStart, 18, "\x7b%".data, 1, 0⟩,
   ⟨ItemElse, 23, "else".data, 1, 0⟩, ⟨ItemTagEnd, 26, "%\x7d".data, 1, 0⟩,
   ⟨ItemText, 27, "B".data, 1, 0⟩, ⟨ItemTagStart, 29, "\x7b%".data, 1, 0⟩,
   ⟨ItemIdentifier, 35, "endif".data, 1, 0⟩, ⟨ItemTagEnd, 38, "%\x7d".data, 1, 0⟩,
   ⟨ItemEOF, 38, [], 1, 0⟩]

/-- The tree `{% if 1 == m %}A{% else %}B{% endif %}` parses to: an `IfStmt`
whose else is the anonymous `BlockStmt` wrapping `B`. -/
def c5Root (second : Int) : List Node :=
  [Node.IfStmt 5 [Node.IntValue 7 1, Node.Comparison 10 "==".data, Node.IntValue 12 second]
    [Node.TextValue 16 "A".data]
    (some (Node.BlockStmt 23 [] [] [Node.TextValue 27 "B".data]))]

/-- `{% block a %}{{ x }}{% endblock %}` (claim C6): the var marker's three
tokens fall through `newBlockStmt`'s switch, appending the stale nil `n`. -/
def c6Input : List Char := "\x7b% block a %\x7d\x7b\x7b x \x7d\x7d\x7b% endblock %\x7d".data

def c6Stream : List Item :=
  [⟨ItemTagStart, 2, "\x7b%".data, 1, 0⟩, ⟨ItemBlock, 8, "block".data, 1, 0⟩,
   ⟨ItemIdentifier, 10, "a".data, 1, 0⟩, ⟨ItemTagEnd, 13, "%\x7d".data, 1, 0⟩,
   ⟨ItemVarStart, 15, "\x7b\x7b".data, 1, 0⟩, ⟨ItemIdentifier, 17, "x".data, 1, 0⟩,
   ⟨ItemVarEnd, 20, "\x7d\x7d".data, 1, 0⟩, ⟨ItemTagStart, 22, "\x7b%".data, 1, 0⟩,
   ⟨ItemIdentifier, 31, "endblock".data, 1, 0⟩, ⟨ItemTagEnd, 34, "%\x7d".data, 1, 0⟩,
   ⟨ItemEOF, 34, [], 1, 0⟩]

def c6Root : List Node :=
  [Node.BlockStmt 10 "a".data [] [Node.nilNode, Node.nilNode, Node.nilNode]]

def c1Stream : List Item :=
  [⟨ItemTagStart, 2, "\x7b%".data, 1, 0⟩, ⟨ItemIf, 5, "if".data, 1, 0⟩,
   ⟨ItemIdentifier, 7, "A".data, 1, 0⟩, ⟨ItemTagEnd, 10, "%\x7d".data, 1, 0⟩,
   ⟨ItemText, 11, "1".data, 1, 0⟩, ⟨ItemTagStart, 13, "\x7b%".data, 1, 0⟩,
   ⟨ItemElIf, 18, "elif".data, 1, 0⟩, ⟨ItemIdentifier, 20, "B".data, 1, 0⟩,
   ⟨ItemTagEnd, 23, "%\x7d".data, 1, 0⟩, ⟨ItemText, 24, "2".data, 1, 0⟩,
   ⟨ItemTagStart, 26, "\x7b%".data, 1, 0⟩, ⟨ItemIdentifier, 32, "endif".data, 1, 0⟩,
   ⟨ItemTagEnd, 35, "%\x7d".data, 1, 0⟩, ⟨ItemEOF, 35, [], 1, 0⟩]


def LexInv (input : List Char) (st : LexState) : Prop :=
  ∃ p, input = p ++ st.pending ++ st.rest ∧ utf8Len p = st.start ∧
    st.pos = st.start + utf8Len st.pending

def TokOk (input : List Char) (t : Item) : Prop :=
  utf8Len t.val ≤ t.pos ∧ t.pos ≤ utf8Len input ∧
    byteSlice input (t.pos - utf8Len t.val) t.pos = t.val

def stGuard : LexFn → LexState → Prop
  | .lexTagStart, st => ∃ tl, st.rest = '{' :: '%' :: tl
  | .lexVarStart, st => ∃ tl, st.rest = '{' :: '{' :: tl
  | .lexTagEnd, st => ∃ tl, st.rest = '%' :: '}' :: tl
  | .lexVarEnd, st => ∃ tl, st.rest = '}' :: '}' :: tl
  | _, _ => True

/-- Well-behavedness of one state-function invocation: every emitted
non-error item has position integrity, and the successor state (if any)
re-establishes the invariant and its state's entry guard. -/
def StepOk (input : List Char) (o : LexOut) : Prop :=
  (∀ t ∈ o.1, t.typ ≠ ItemError → TokOk input t) ∧
  (∀ f' st', o.2 = some (f', st') → LexInv input st' ∧ stGuard f' st')

/-! # Theorems -/

/-- The token streams of the concrete templates (each proved by computation
of the lexer run). -/
theorem c1Stream_eq : runLex 100 .lexText (initLex c1Input) = c1Stream := rfl

theorem c4Stream_eq : runLex 20 .lexText (initLex c4Input) = c4Stream := rfl

theorem c5EqStream_eq : runLex 100 .lexText (initLex c5EqInput) = c5Stream 1 "1".data := rfl

theorem c5NeStream_eq : runLex 100 .lexText (initLex c5NeInput) = c5Stream 2 "2".data := rfl

theorem c6Stream_eq : runLex 100 .lexText (initLex c6Input) = c6Stream := rfl

/-- **C1.**  Parsing `{% if A %}1{% elif B %}2{% endif %}` does **not**
produce the documented desugared tree: the recursive `newIfStmt` for the
`elif` branch is entered with the `elif` keyword token still un-consumed in
the lookahead buffer, so its expression loop reads the `elif` token itself
and fails with "unexpected token in expression".  `Parse` returns that
error for every template containing an `elif` clause of this shape, contrary
to the desugaring documented in `tagif.go`'s own comments. -/
theorem c1_elif_parse_fails :
    ParseGo 100 100 c1Input = some (.error "unexpected token in expression".data) := by
  simp only [ParseGo, c1Stream_eq]
  rfl

/-- **C5.**  Both `{% if 1 == 1 %}A{% else %}B{% endif %}` and the `1 == 2`
variant parse successfully to the expected `IfStmt`, but executing either
tree yields `""` — not `"A"`/`"B"` — because `IfStmt` has no `Execute`
override and inherits the `Base` stub, contrary to `IfStmt`'s own doc
comment ("If expression is met, 'Body' should be executed...").  The
evaluator applied to the parsed condition does distinguish the two. -/
theorem c5_ifstmt_execute_is_stub :
    ParseGo 100 100 c5EqInput = some (.ok (c5Root 1)) ∧
    ParseGo 100 100 c5NeInput = some (.ok (c5Root 2)) ∧
    ExecuteNodes (c5Root 1) = .ret [] none ∧
    ExecuteNodes (c5Root 2) = .ret [] none ∧
    "A".data ≠ ([] : List Char) ∧ "B".data ≠ ([] : List Char) ∧
    EvaluateExpression [Node.IntValue 7 1, Node.Comparison 10 "==".data, Node.IntValue 12 1]
      = .ok true ∧
    EvaluateExpression [Node.IntValue 7 1, Node.Comparison 10 "==".data, Node.IntValue 12 2]
      = .ok false := by
  refine ⟨?_, ?_, rfl, rfl, by decide, by decide, rfl, rfl⟩
  · simp only [ParseGo, c5EqStream_eq]
    rfl
  · simp only [ParseGo, c5NeStream_eq]
    rfl

/-- **C6.**  `{% block a %}{{ x }}{% endblock %}` parses *successfully*:
the `{{`, `x`, `}}` tokens fall through `newBlockStmt`'s switch, each
appending the never-assigned named return `n` (a nil `Node`) to the body.
Executing the returned tree calls `Execute` on a nil interface value — a
panic, not an error return. -/
theorem c6_parse_succeeds_execute_panics :
    ParseGo 100 100 c6Input = some (.ok c6Root) ∧
    ExecuteNodes c6Root = .panic := by
  refine ⟨?_, rfl⟩
  simp only [ParseGo, c6Stream_eq]
  rfl

theorem ifBodyLoop_stuck (fuel : Nat) :
    ∀ (s0 : Item) (body : List Node) (curN : Node) (a b : Option Node),
    ifBodyLoop fuel ⟨[], [], s0⟩ body curN a b = none := by
  induction fuel with
  | zero => intro s0 body curN a b; rfl
  | succ n ih =>
    intro s0 body curN a b
    have step : ifBodyLoop (n+1) ⟨[], [], s0⟩ body curN a b =
        ifBodyLoop n ⟨[], [], zeroItem⟩ (body ++ [curN]) curN a b := by
      conv_lhs => rw [ifBodyLoop]
      rfl
    rw [step]
    exact ih zeroItem (body ++ [curN]) curN a b

theorem c4_exprLoop (g : Nat) :
    ifExprLoop (g+1+1) ⟨[], [⟨ItemNumber, 7, "1".data, 1, 0⟩, ⟨ItemTagEnd, 10, "%\x7d".data, 1, 0⟩,
        ⟨ItemError, 10, "unexpected sequence, expected tag or variable start".data, 1, 0⟩],
        ⟨ItemIf, 5, "if".data, 1, 0⟩⟩ [] Node.nilNode =
    some (.ok ([Node.IntValue 7 1], Node.IntValue 7 1,
      ⟨[], [⟨ItemError, 10, "unexpected sequence, expected tag or variable start".data, 1, 0⟩],
       ⟨ItemTagEnd, 10, "%\x7d".data, 1, 0⟩⟩)) := by
  have s1 : ifExprLoop (g+1+1) ⟨[], [⟨ItemNumber, 7, "1".data, 1, 0⟩, ⟨ItemTagEnd, 10, "%\x7d".data, 1, 0⟩,
        ⟨ItemError, 10, "unexpected sequence, expected tag or variable start".data, 1, 0⟩],
        ⟨ItemIf, 5, "if".data, 1, 0⟩⟩ [] Node.nilNode =
      ifExprLoop (g+1) ⟨[], [⟨ItemTagEnd, 10, "%\x7d".data, 1, 0⟩,
        ⟨ItemError, 10, "unexpected sequence, expected tag or variable start".data, 1, 0⟩],
        ⟨ItemNumber, 7, "1".data, 1, 0⟩⟩ [Node.IntValue 7 1] (Node.IntValue 7 1) := by
    conv_lhs => rw [ifExprLoop]
    rfl
  rw [s1]
  conv_lhs => rw [ifExprLoop]
  rfl

theorem c4_bodyLoop (g : Nat) :
    ifBodyLoop (g+1) ⟨[], [⟨ItemError, 10, "unexpected sequence, expected tag or variable start".data, 1, 0⟩],
        ⟨ItemTagEnd, 10, "%\x7d".data, 1, 0⟩⟩ [] (Node.IntValue 7 1) none none = none := by
  have step : ifBodyLoop (g+1) ⟨[], [⟨ItemError, 10, "unexpected sequence, expected tag or variable start".data, 1, 0⟩],
        ⟨ItemTagEnd, 10, "%\x7d".data, 1, 0⟩⟩ [] (Node.IntValue 7 1) none none =
      ifBodyLoop g ⟨[], [], ⟨ItemError, 10, "unexpected sequence, expected tag or variable start".data, 1, 0⟩⟩
        [Node.IntValue 7 1] (Node.IntValue 7 1) none none := by
    conv_lhs => rw [ifBodyLoop]
    rfl
  rw [step]
  exact ifBodyLoop_stuck g _ _ _ _ _

theorem c4_newIf (g : Nat) :
    newIfStmtF (g+1+1+1) ⟨[], [⟨ItemNumber, 7, "1".data, 1, 0⟩, ⟨ItemTagEnd, 10, "%\x7d".data, 1, 0⟩,
        ⟨ItemError, 10, "unexpected sequence, expected tag or variable start".data, 1, 0⟩],
        ⟨ItemIf, 5, "if".data, 1, 0⟩⟩ = none := by
  conv_lhs => rw [newIfStmtF]
  simp only [c4_exprLoop g, c4_bodyLoop (g+1)]

/-- **C4.**  For the input `{% if 1 %}{` the lexer emits an `Error` token
(inside the if-statement's body region) and halts; `Parse` then **never
terminates**: `newIfStmt`'s body loop has no case for `Error` tokens, so it
appends the stale `n` and keeps reading — and after the goroutine closes the
channel every receive yields the zero `Item` (again of type `itemError`),
looping forever.  Formally, the parser returns no result at any fuel. -/
theorem c4_diverges (pFuel : Nat) : ParseGo 20 pFuel c4Input = none := by
  have h : parseLoop pFuel ⟨[], c4Stream, zeroItem⟩ [] = none := by
    match pFuel with
    | 0 => rfl
    | 1 => rfl
    | 2 => rfl
    | 3 => rfl
    | 4 => rfl
    | (f + 5) =>
      have t0 : parseLoop (f+1+1+1+1+1) ⟨[], c4Stream, zeroItem⟩ [] =
          (match tagF (f+1+1+1+1) ⟨[], [⟨ItemIf, 5, "if".data, 1, 0⟩,
              ⟨ItemNumber, 7, "1".data, 1, 0⟩, ⟨ItemTagEnd, 10, "%\x7d".data, 1, 0⟩,
              ⟨ItemError, 10, "unexpected sequence, expected tag or variable start".data, 1, 0⟩],
              ⟨ItemTagStart, 2, "\x7b%".data, 1, 0⟩⟩ with
          | none => none
          | some (.error e) => some (.error e)
          | some (.ok (n, st3)) => parseLoop (f+1+1+1+1) st3 ([] ++ [n])) := by
        conv_lhs => rw [parseLoop]
        rfl
      have tA : tagF (f+1+1+1+1) ⟨[], [⟨ItemIf, 5, "if".data, 1, 0⟩,
              ⟨ItemNumber, 7, "1".data, 1, 0⟩, ⟨ItemTagEnd, 10, "%\x7d".data, 1, 0⟩,
              ⟨ItemError, 10, "unexpected sequence, expected tag or variable start".data, 1, 0⟩],
              ⟨ItemTagStart, 2, "\x7b%".data, 1, 0⟩⟩ =
          newIfStmtF (f+1+1+1) ⟨[], [⟨ItemNumber, 7, "1".data, 1, 0⟩, ⟨ItemTagEnd, 10, "%\x7d".data, 1, 0⟩,
              ⟨ItemError, 10, "unexpected sequence, expected tag or variable start".data, 1, 0⟩],
              ⟨ItemIf, 5, "if".data, 1, 0⟩⟩ := by
        conv_lhs => rw [tagF]
        rfl
      show parseLoop (f+1+1+1+1+1) ⟨[], c4Stream, zeroItem⟩ [] = none
      rw [t0, tA, c4_newIf f]
  simp only [ParseGo, c4Stream_eq, h]

/-- **C2.**  `emit` stores `l.pos` — the byte offset at which the token
*ends* — in the item's `Pos` field, although the field's own doc comment
says "the starting position, in bytes" (`errorf`, by contrast, correctly
uses `l.start`).  For input `"a"` the `Text` token `"a"` carries `pos = 1`,
so slicing the input at `[t.pos, t.pos+len(t.val))` runs off the end and
cannot reproduce the value; slicing *backwards* from `t.pos` does. -/
theorem c2_emit_stores_end_offset :
    runLex 1 .lexText (initLex "a".data) =
      [⟨ItemText, 1, "a".data, 1, 0⟩, ⟨ItemEOF, 1, [], 1, 0⟩] ∧
    byteSlice "a".data 1 (1 + utf8Len "a".data) ≠ "a".data ∧
    byteSlice "a".data (1 - utf8Len "a".data) 1 = "a".data := by
  refine ⟨rfl, by decide, by decide⟩

/-- **C8 counterexample.**  The empty input contains no `'{'` but lexes to
exactly *one* token (`EOF`) — not two: `lexText` skips the `Text` emission
when `pos == start`. -/
theorem c8_counterexample_empty_input :
    runLex 1 .lexText (initLex []) = [⟨ItemEOF, 0, [], 1, 0⟩] := rfl

/-- **C8 (amended).**  For every *nonempty* input without `'{'`, lexing
emits exactly two tokens: a `Text` token whose value is the whole input,
then `EOF`.  (For the empty input only `EOF` is emitted.) -/
theorem c8_text_then_eof (input : List Char) (fuel : Nat)
    (hbrace : '{' ∉ input) (hne : input ≠ []) (hfuel : 1 ≤ fuel) :
    runLex fuel .lexText (initLex input) =
      [⟨ItemText, utf8Len input, input, 1, 0⟩,
       ⟨ItemEOF, utf8Len input, [], 1 + countNL input, 0⟩] := by
  match fuel, hfuel with
  | f + 1, _ =>
    have hdrop : input.dropWhile (· ≠ '{') = [] := by
      rw [List.dropWhile_eq_nil_iff]
      intro x hx
      simp only [ne_eq, decide_eq_true_eq]
      exact fun h => hbrace (h ▸ hx)
    have hpos : 0 < utf8Len input := by
      match input, hne with
      | c :: tl, _ =>
        simp only [utf8Len, List.map_cons, List.sum_cons]
        have := Char.utf8Size_pos c
        omega
    simp only [runLex, stepLex, lexTextStep, hdrop, initLex, mkItem, afterEmit]
    simp only [List.nil_append, Nat.zero_add, gt_iff_lt, hpos, if_true]

/-- **C3 counterexample.**  `1 > 2` evaluates to `(false, nil)` — no error:
`handleComparison` has a case only for `"=="` and returns a bare `false`
for every other operator, which `eval3Parts` passes along with a nil error. -/
theorem c3_counterexample_gt_silent_false :
    EvaluateExpression [Node.IntValue 0 1, Node.Comparison 0 ">".data, Node.IntValue 0 2] =
      .ok false := rfl

/-- **C3 (amended).**  For every 3-node expression whose operands are
recognized (`IntValue`/`StringValue`/`Identifier`) and whose combination is
not `==` with an integer left operand and integer-or-string right operand,
the evaluator returns `(false, nil)` — silently, with **no** error.  Errors
arise only for an unrecognized middle or operand node. -/
theorem c3_unsupported_comparison_silent_false (x y : Node) (op : List Char) (pc : Nat)
    (hx : isOperandNode x = true) (hy : isOperandNode y = true)
    (hno : ¬(op = "==".data ∧ isIntNode x = true ∧ (isIntNode y = true ∨ isStringNode y = true))) :
    EvaluateExpression [x, Node.Comparison pc op, y] = .ok false := by
  by_cases hop : op = "==".data
  · subst hop
    cases x <;> simp_all [isOperandNode, isIntNode, EvaluateExpression, eval3Parts,
      handleComparison, compareEqual] <;>
      cases y <;> simp_all [isOperandNode, isIntNode, isStringNode, compareEqual]
  · cases x <;> simp_all [isOperandNode, EvaluateExpression, eval3Parts, handleComparison] <;>
      cases y <;> simp_all [isOperandNode]

/-- Witness for the amended C3 at the concrete comparison `1 < 2`. -/
theorem c3_witness :
    EvaluateExpression [Node.IntValue 0 1, Node.Comparison 0 "<".data, Node.IntValue 0 2] =
      .ok false :=
  c3_unsupported_comparison_silent_false (Node.IntValue 0 1) (Node.IntValue 0 2) "<".data 0
    (by decide) (by decide) (by intro h; exact absurd h.1 (by decide))

/-- **C7 counterexample.**  A string-literal node holding `1` evaluates to
`(true, nil)`: `eval1Part` delegates to `strconv.ParseBool`, which accepts
twelve lexemes — not just the case-sensitive `true`/`false` the claim
describes. -/
theorem c7_counterexample_parsebool_one :
    EvaluateExpression [Node.StringValue 0 "1".data] = .ok true := rfl

/-- **C7 (amended).**  For a single string-literal node the evaluator
follows `strconv.ParseBool` exactly: `true` for the six lexemes
`1,t,T,true,TRUE,True`; `false` for `0,f,F,false,FALSE,False`; an error for
every other string.  In particular a lexer-produced string literal — whose
value retains its surrounding quotes — is never among the twelve, so every
template string literal condition errors. -/
theorem c7_parsebool_characterization (p : Nat) (s : List Char) :
    (EvaluateExpression [Node.StringValue p s] = .ok true ↔ s ∈ trueLexemes) ∧
    (EvaluateExpression [Node.StringValue p s] = .ok false ↔ s ∈ falseLexemes) ∧
    ((∃ e, EvaluateExpression [Node.StringValue p s] = .error e) ↔
      s ∉ trueLexemes ∧ s ∉ falseLexemes) := by
  have hE : EvaluateExpression [Node.StringValue p s] = parseBoolGo s := rfl
  rw [hE]
  unfold parseBoolGo
  split_ifs with h1 h2
  · have h2 : s ∉ falseLexemes := by
      simp only [trueLexemes, List.mem_cons, List.not_mem_nil, or_false] at h1
      rcases h1 with rfl | rfl | rfl | rfl | rfl | rfl <;> decide
    simp [h1, h2]
  · have h1' : s ∉ trueLexemes := h1
    simp [h1', h2]
  · simp [h1, h2]

/-- Witness for the amended C8 at the concrete input `"x"`. -/
theorem c8_witness :
    runLex 1 .lexText (initLex "x".data) =
      [⟨ItemText, 1, "x".data, 1, 0⟩, ⟨ItemEOF, 1, [], 1, 0⟩] :=
  c8_text_then_eof "x".data 1 (by decide) (by decide) (by decide)

theorem isSpace_eq_false_of_isAlphaNumeric (c : Char) (h : isAlphaNumeric c = true) :
    isSpace c = false := by
  by_contra hs
  have hs' : isSpace c = true := by revert hs; cases isSpace c <;> simp
  have : c = ' ' ∨ c = '\t' := by
    simpa [isSpace, Bool.or_eq_true, decide_eq_true_eq] using hs'
  rcases this with rfl | rfl <;> simp [isAlphaNumeric] at h

theorem c10_go (word : List Char) :
    ∀ (tail : List Char) (st : LexState),
    (∀ c ∈ word, isAlphaNumeric c = true) →
    (∀ c tl, tail = c :: tl → isSpace c = false ∧ isAlphaNumeric c = false) →
    lexIdentifierGo (word ++ tail) st =
      ([⟨ItemError, st.start, "bad character".data, st.startLine, 0⟩], none) := by
  induction word with
  | nil =>
    intro tail st _ ht
    match tail with
    | [] => rfl
    | c :: tl =>
      obtain ⟨h1, h2⟩ := ht c tl rfl
      simp [lexIdentifierGo, h1, h2, errItem]
  | cons w ws ih =>
    intro tail st hw ht
    have hwa : isAlphaNumeric w = true := hw w (by simp)
    have hws : isSpace w = false := isSpace_eq_false_of_isAlphaNumeric w hwa
    simp only [List.cons_append, lexIdentifierGo, hws, hwa, Bool.false_eq_true, if_false,
      if_true]
    have := ih tail (consumeC w (ws ++ tail) st) (fun c hc => hw c (by simp [hc])) ht
    simpa [consumeC] using this

/-- **C10.**  Inside a tag, a word scanned by `lexIdentifier` must be
followed by a space or tab: whenever the run of alphanumeric runes is
followed by end of input or by any rune that is neither space/tab nor
alphanumeric (`%`, a newline, …), the lexer emits a single
"bad character" `Error` token (at the word's start position) and halts.
Consequently `{% if x%}` lexes to `TagStart, if, Error` and never produces
a `TagEnd` token. -/
theorem c10_identifier_requires_space :
    (∀ (word tail : List Char) (st : LexState),
      st.rest = word ++ tail →
      (∀ c ∈ word, isAlphaNumeric c = true) →
      (∀ c tl, tail = c :: tl → isSpace c = false ∧ isAlphaNumeric c = false) →
      lexIdentifierStep st =
        ([⟨ItemError, st.start, "bad character".data, st.startLine, 0⟩], none)) ∧
    runLex 10 .lexText (initLex "\x7b% if x%\x7d".data) =
      [⟨ItemTagStart, 2, "\x7b%".data, 1, 0⟩, ⟨ItemIf, 5, "if".data, 1, 0⟩,
       ⟨ItemError, 6, "bad character".data, 1, 0⟩] ∧
    ItemTagEnd ∉ (runLex 10 .lexText (initLex "\x7b% if x%\x7d".data)).map Item.typ := by
  refine ⟨?_, rfl, by decide⟩
  intro word tail st hrest hw ht
  have : lexIdentifierStep st = lexIdentifierGo (word ++ tail) st := by
    rw [lexIdentifierStep, hrest]
  rw [this]
  exact c10_go word tail st hw ht

/-- Witness for C10's universal part: the lexer state reached inside
`{% if x%}` when `lexIdentifier` takes over at the `x` (byte offset 6). -/
theorem c10_witness :
    lexIdentifierStep ⟨6, 6, 1, 1, 1, 0, [], "x%\x7d".data⟩ =
      ([⟨ItemError, 6, "bad character".data, 1, 0⟩], none) :=
  c10_identifier_requires_space.1 "x".data "%\x7d".data _ rfl (by decide)
    (by rintro c tl h; cases h; decide)

/-- **C9.**  `ExecuteNodes` is determined by the `Execute` results of its
nodes (third conjunct); over those results it concatenates the outputs in
order with no separator when all succeed (first conjunct), and stops at the
first error, returning the empty string alongside that error, regardless of
what follows (second conjunct). -/
theorem c9_execute_nodes_concat_short_circuit :
    (∀ (rs : List ExecResult) (outs : List (List Char)),
      List.Forall₂ (fun r s => r = ExecResult.ret s none) rs outs →
      executeNodesAsResults rs = .ret outs.flatten none) ∧
    (∀ (rs1 : List ExecResult) (v e : List Char) (rs2 : List ExecResult),
      (∀ r ∈ rs1, ∃ s, r = ExecResult.ret s none) →
      executeNodesAsResults (rs1 ++ ExecResult.ret v (some e) :: rs2) = .ret [] (some e)) ∧
    (∀ ns : List Node, ExecuteNodes ns = executeNodesAsResults (ns.map execute)) := by
  refine ⟨?_, ?_, ?_⟩
  · intro rs outs h
    induction h with
    | nil => rfl
    | @cons r s rs' outs' hr _ ih =>
      subst hr
      simp [executeNodesAsResults, ih, List.flatten]
  · intro rs1 v e rs2 hok
    induction rs1 with
    | nil => rfl
    | cons r rs1' ih =>
      obtain ⟨s, rfl⟩ := hok r (by simp)
      have ih' := ih (fun r hr => hok r (by simp [hr]))
      simp [executeNodesAsResults, ih']
  · intro ns
    induction ns with
    | nil => rfl
    | cons n ns ih =>
      simp only [ExecuteNodes, executeNodesAsResults, List.map_cons, ih]

/-- Witness for C9: concrete success and failure sequences. -/
theorem c9_witness :
    executeNodesAsResults [ExecResult.ret "ab".data none, ExecResult.ret "cd".data none] =
      .ret ("ab".data ++ ("cd".data ++ [])) none ∧
    executeNodesAsResults
      [ExecResult.ret "x".data none, ExecResult.ret "y".data (some "boom".data),
       ExecResult.panic] = .ret [] (some "boom".data) :=
  ⟨c9_execute_nodes_concat_short_circuit.1 _ ["ab".data, "cd".data]
      (List.Forall₂.cons rfl (List.Forall₂.cons rfl List.Forall₂.nil)),
   c9_execute_nodes_concat_short_circuit.2.1 [ExecResult.ret "x".data none]
      "y".data "boom".data [ExecResult.panic]
      (by intro r hr; simp at hr; exact ⟨"x".data, hr⟩)⟩

theorem utf8Len_nil : utf8Len [] = 0 := rfl

theorem utf8Len_append (a b : List Char) : utf8Len (a ++ b) = utf8Len a + utf8Len b := by
  simp [utf8Len]

theorem utf8Len_cons (c : Char) (l : List Char) :
    utf8Len (c :: l) = c.utf8Size + utf8Len l := by
  simp [utf8Len]

theorem byteDropChars_zero (l : List Char) : byteDropChars l 0 = l := by
  cases l <;> simp [byteDropChars]

theorem byteTakeChars_zero (l : List Char) : byteTakeChars l 0 = [] := by
  cases l <;> simp [byteTakeChars]

theorem byteDropChars_append (p l : List Char) :
    byteDropChars (p ++ l) (utf8Len p) = l := by
  induction p with
  | nil => rw [List.nil_append, utf8Len_nil, byteDropChars_zero]
  | cons c p' ih =>
    have hpos := Char.utf8Size_pos c
    have h1 : utf8Len (c :: p') = (c.utf8Size + utf8Len p' - 1) + 1 := by
      rw [utf8Len_cons]; omega
    rw [List.cons_append, h1, byteDropChars]
    have h2 : c.utf8Size + utf8Len p' - 1 + 1 - c.utf8Size = utf8Len p' := by omega
    rw [h2, ih]

theorem byteTakeChars_append (v r : List Char) :
    byteTakeChars (v ++ r) (utf8Len v) = v := by
  induction v with
  | nil => rw [List.nil_append, utf8Len_nil, byteTakeChars_zero]
  | cons c v' ih =>
    have hpos := Char.utf8Size_pos c
    have h1 : utf8Len (c :: v') = (c.utf8Size + utf8Len v' - 1) + 1 := by
      rw [utf8Len_cons]; omega
    rw [List.cons_append, h1, byteTakeChars]
    have h2 : c.utf8Size + utf8Len v' - 1 + 1 - c.utf8Size = utf8Len v' := by omega
    rw [h2, ih]

theorem mkItem_ok (input : List Char) (st : LexState) (h : LexInv input st)
    (t : ItemType) : TokOk input (mkItem t st) := by
  obtain ⟨p, hsplit, hstart, hpos⟩ := h
  refine ⟨?_, ?_, ?_⟩
  · simp [mkItem, hpos]
  · simp only [mkItem]
    rw [hsplit, utf8Len_append, utf8Len_append, hstart] at *
    omega
  · simp only [mkItem, byteSlice]
    have e1 : st.pos - utf8Len st.pending = st.start := by omega
    rw [e1]
    have e2 : st.pos - st.start = utf8Len st.pending := by omega
    rw [e2, hsplit, List.append_assoc, ← hstart, byteDropChars_append, byteTakeChars_append]

theorem consumeC_pending (c : Char) (tl : List Char) (st : LexState) :
    (consumeC c tl st).pending = st.pending ++ [c] := rfl
theorem consumeC_rest (c : Char) (tl : List Char) (st : LexState) :
    (consumeC c tl st).rest = tl := rfl
theorem consumeC_pos (c : Char) (tl : List Char) (st : LexState) :
    (consumeC c tl st).pos = st.pos + c.utf8Size := rfl
theorem consumeC_start (c : Char) (tl : List Char) (st : LexState) :
    (consumeC c tl st).start = st.start := rfl
theorem consumeC_startLine (c : Char) (tl : List Char) (st : LexState) :
    (consumeC c tl st).startLine = st.startLine := rfl
theorem consumeC_parenDepth (c : Char) (tl : List Char) (st : LexState) :
    (consumeC c tl st).parenDepth = st.parenDepth := rfl

theorem consumeC_inv {input : List Char} {st : LexState} (h : LexInv input st)
    (c : Char) (tl : List Char) (hrest : st.rest = c :: tl) :
    LexInv input (consumeC c tl st) := by
  obtain ⟨p, hsplit, hstart, hpos⟩ := h
  refine ⟨p, ?_, by rw [consumeC_start]; exact hstart, ?_⟩
  · rw [consumeC_pending, consumeC_rest, hsplit, hrest]
    simp
  · rw [consumeC_pos, consumeC_start, consumeC_pending, hpos, utf8Len_append, utf8Len_cons,
      utf8Len_nil]
    omega

theorem afterEmit_fields (st : LexState) :
    (afterEmit st).pending = [] ∧ (afterEmit st).rest = st.rest ∧
    (afterEmit st).pos = st.pos ∧ (afterEmit st).start = st.pos := by
  refine ⟨rfl, rfl, rfl, rfl⟩

theorem afterEmit_inv {input : List Char} {st : LexState} (h : LexInv input st) :
    LexInv input (afterEmit st) := by
  obtain ⟨p, hsplit, hstart, hpos⟩ := h
  refine ⟨p ++ st.pending, ?_, ?_, ?_⟩
  · rw [(afterEmit_fields st).1, (afterEmit_fields st).2.1, hsplit]
    simp
  · rw [(afterEmit_fields st).2.2.2, utf8Len_append, hstart, hpos]
  · rw [(afterEmit_fields st).2.2.1, (afterEmit_fields st).2.2.2, (afterEmit_fields st).1,
      utf8Len_nil, hpos]
    omega

theorem ignoreF_fields (st : LexState) :
    (ignoreF st).pending = [] ∧ (ignoreF st).rest = st.rest ∧
    (ignoreF st).pos = st.pos ∧ (ignoreF st).start = st.pos := by
  refine ⟨rfl, rfl, rfl, rfl⟩

theorem ignoreF_inv {input : List Char} {st : LexState} (h : LexInv input st) :
    LexInv input (ignoreF st) := by
  obtain ⟨p, hsplit, hstart, hpos⟩ := h
  refine ⟨p ++ st.pending, ?_, ?_, ?_⟩
  · rw [(ignoreF_fields st).1, (ignoreF_fields st).2.1, hsplit]
    simp
  · rw [(ignoreF_fields st).2.2.2, utf8Len_append, hstart, hpos]
  · rw [(ignoreF_fields st).2.2.1, (ignoreF_fields st).2.2.2, (ignoreF_fields st).1,
      utf8Len_nil, hpos]
    omega

theorem acceptF_inv {input : List Char} {st : LexState} (h : LexInv input st)
    (valid : List Char) : LexInv input (acceptF valid st).2 := by
  rcases hr : st.rest with _ | ⟨c, tl⟩
  · rw [acceptF.eq_def, hr]
    exact h
  · rw [acceptF.eq_def, hr]
    show LexInv input (if c ∈ valid then (true, consumeC c tl st) else (false, st)).2
    by_cases hc : c ∈ valid
    · rw [if_pos hc]
      exact consumeC_inv h c tl hr
    · rw [if_neg hc]
      exact h

theorem acceptRunGo_inv {input : List Char} (valid : List Char) :
    ∀ (l : List Char) (st : LexState), st.rest = l → LexInv input st →
    LexInv input (acceptRunGo valid l st) := by
  intro l
  induction l with
  | nil => intro st _ h; exact h
  | cons c tl ih =>
    intro st hrest h
    rw [acceptRunGo]
    by_cases hc : c ∈ valid
    · rw [if_pos hc]
      exact ih (consumeC c tl st) rfl (consumeC_inv h c tl hrest)
    · rw [if_neg hc]
      exact h

theorem acceptRunF_inv {input : List Char} {st : LexState} (h : LexInv input st)
    (valid : List Char) : LexInv input (acceptRunF valid st) :=
  acceptRunGo_inv valid st.rest st rfl h

theorem inv_of_fields {input : List Char} {st st' : LexState} (h : LexInv input st)
    (hpend : st'.pending = st.pending) (hrest : st'.rest = st.rest)
    (hpos : st'.pos = st.pos) (hstart : st'.start = st.start) : LexInv input st' := by
  obtain ⟨p, hsplit, hs, hp⟩ := h
  exact ⟨p, by rw [hpend, hrest]; exact hsplit, by rw [hstart]; exact hs,
    by rw [hpos, hstart, hpend]; exact hp⟩

theorem startsWith2_iff (a b : Char) (l : List Char) :
    startsWith2 a b l = true ↔ ∃ tl, l = a :: b :: tl := by
  match l with
  | [] => simp [startsWith2]
  | [x] => simp [startsWith2]
  | x :: y :: tl =>
    simp only [startsWith2, Bool.and_eq_true, decide_eq_true_eq]
    constructor
    · rintro ⟨rfl, rfl⟩; exact ⟨tl, rfl⟩
    · rintro ⟨tl', h⟩
      injection h with h1 h2
      injection h2 with h2 h3
      exact ⟨h1, h2⟩

theorem advance2_inv {input : List Char} {st : LexState} (h : LexInv input st)
    (a b : Char) (tl : List Char) (hrest : st.rest = a :: b :: tl)
    (ha : a.utf8Size = 1) (hb : b.utf8Size = 1) :
    LexInv input (advanceBytes 2 st) ∧ (advanceBytes 2 st).rest = tl ∧
      (advanceBytes 2 st).pending = st.pending ++ [a, b] := by
  obtain ⟨p, hsplit, hstart, hpos⟩ := h
  have htake : byteTakeChars st.rest 2 = [a, b] := by
    rw [hrest]
    show byteTakeChars (a :: b :: tl) (1 + 1) = [a, b]
    rw [byteTakeChars, ha]
    norm_num
    rw [show (1 : Nat) = 0 + 1 from rfl, byteTakeChars, hb]
    norm_num
    exact byteTakeChars_zero tl
  have hdrop : byteDropChars st.rest 2 = tl := by
    have : st.rest = [a, b] ++ tl := by rw [hrest]; rfl
    have hlen : utf8Len [a, b] = 2 := by
      rw [utf8Len_cons, utf8Len_cons, utf8Len_nil, ha, hb]
    rw [this, ← hlen, byteDropChars_append]
  refine ⟨⟨p, ?_, ?_, ?_⟩, ?_, ?_⟩
  · show input = p ++ (st.pending ++ byteTakeChars st.rest 2) ++ byteDropChars st.rest 2
    rw [htake, hdrop, hsplit, hrest]
    simp
  · exact hstart
  · show st.pos + 2 = st.start + utf8Len (st.pending ++ byteTakeChars st.rest 2)
    rw [htake, utf8Len_append, hpos, utf8Len_cons, utf8Len_cons, utf8Len_nil, ha, hb]
    omega
  · show byteDropChars st.rest 2 = tl
    exact hdrop
  · show st.pending ++ byteTakeChars st.rest 2 = st.pending ++ [a, b]
    rw [htake]

theorem lexTagStartStep_ok {input : List Char} {st : LexState} (h : LexInv input st)
    (hg : ∃ tl, st.rest = '{' :: '%' :: tl) : StepOk input (lexTagStartStep st) := by
  obtain ⟨tl, hrest⟩ := hg
  obtain ⟨h1, hr1, hp1⟩ := advance2_inv h '{' '%' tl hrest (by decide) (by decide)
  constructor
  · intro t ht _
    simp only [lexTagStartStep] at ht
    rw [List.mem_singleton] at ht
    subst ht
    exact mkItem_ok input _ h1 _
  · intro f' st' hsome
    simp only [lexTagStartStep] at hsome
    injection hsome with hfs
    injection hfs with hf hst
    subst hf; subst hst
    exact ⟨afterEmit_inv h1, trivial⟩

theorem lexVarStartStep_ok {input : List Char} {st : LexState} (h : LexInv input st)
    (hg : ∃ tl, st.rest = '{' :: '{' :: tl) : StepOk input (lexVarStartStep st) := by
  obtain ⟨tl, hrest⟩ := hg
  obtain ⟨h1, hr1, hp1⟩ := advance2_inv h '{' '{' tl hrest (by decide) (by decide)
  constructor
  · intro t ht _
    simp only [lexVarStartStep] at ht
    rw [List.mem_singleton] at ht
    subst ht
    exact mkItem_ok input _ h1 _
  · intro f' st' hsome
    simp only [lexVarStartStep] at hsome
    injection hsome with hfs
    injection hfs with hf hst
    subst hf; subst hst
    exact ⟨afterEmit_inv h1, trivial⟩

theorem lexTagEndStep_ok {input : List Char} {st : LexState} (h : LexInv input st)
    (hg : ∃ tl, st.rest = '%' :: '}' :: tl) : StepOk input (lexTagEndStep st) := by
  obtain ⟨tl, hrest⟩ := hg
  obtain ⟨h1, hr1, hp1⟩ := advance2_inv h '%' '}' tl hrest (by decide) (by decide)
  constructor
  · intro t ht _
    simp only [lexTagEndStep] at ht
    rw [List.mem_singleton] at ht
    subst ht
    exact mkItem_ok input _ h1 _
  · intro f' st' hsome
    simp only [lexTagEndStep] at hsome
    injection hsome with hfs
    injection hfs with hf hst
    subst hf; subst hst
    exact ⟨afterEmit_inv h1, trivial⟩

theorem lexVarEndStep_ok {input : List Char} {st : LexState} (h : LexInv input st)
    (hg : ∃ tl, st.rest = '}' :: '}' :: tl) : StepOk input (lexVarEndStep st) := by
  obtain ⟨tl, hrest⟩ := hg
  obtain ⟨h1, hr1, hp1⟩ := advance2_inv h '}' '}' tl hrest (by decide) (by decide)
  constructor
  · intro t ht _
    simp only [lexVarEndStep] at ht
    rw [List.mem_singleton] at ht
    subst ht
    exact mkItem_ok input _ h1 _
  · intro f' st' hsome
    simp only [lexVarEndStep] at hsome
    injection hsome with hfs
    injection hfs with hf hst
    subst hf; subst hst
    exact ⟨afterEmit_inv h1, trivial⟩

theorem shift_inv {input : List Char} {st : LexState} (h : LexInv input st)
    (mid rest' : List Char) (hsp : st.rest = mid ++ rest') :
    LexInv input { st with pending := st.pending ++ mid, rest := rest',
                           pos := st.pos + utf8Len mid } := by
  obtain ⟨p, hsplit, hstart, hpos⟩ := h
  refine ⟨p, ?_, hstart, ?_⟩
  · show input = p ++ (st.pending ++ mid) ++ rest'
    rw [hsplit, hsp]
    simp
  · show st.pos + utf8Len mid = st.start + utf8Len (st.pending ++ mid)
    rw [utf8Len_append, hpos]
    omega

theorem lexTextEmitThen_ok {input : List Char} {st1 : LexState} {f : LexFn}
    (h : LexInv input st1)
    (hg : ∀ st' : LexState, st'.rest = st1.rest → stGuard f st') :
    StepOk input (lexTextEmitThen f st1) := by
  unfold lexTextEmitThen StepOk
  split_ifs with hp
  · refine ⟨?_, ?_⟩
    · intro t ht _
      rcases List.mem_cons.mp ht with rfl | ht2
      · apply mkItem_ok
        exact h
      · exact absurd ht2 (List.not_mem_nil t)
    · intro f' st' hsome
      injection hsome with hfs
      injection hfs with hf hst
      subst hf; subst hst
      refine ⟨?_, hg _ rfl⟩
      apply ignoreF_inv
      apply afterEmit_inv
      exact h
  · refine ⟨?_, ?_⟩
    · intro t ht _
      exact absurd ht (List.not_mem_nil t)
    · intro f' st' hsome
      injection hsome with hfs
      injection hfs with hf hst
      subst hf; subst hst
      refine ⟨?_, hg _ rfl⟩
      apply ignoreF_inv
      exact h

theorem lexTextStep_ok {input : List Char} {st0 : LexState} (h : LexInv input st0) :
    StepOk input (lexTextStep st0) := by
  have h0 : LexInv input { st0 with width := 0 } := inv_of_fields h rfl rfl rfl rfl
  unfold lexTextStep StepOk
  dsimp only
  split
  · -- dropWhile = [] : EOF path
    rename_i heq
    have hrs : ({ st0 with width := 0 } : LexState).rest =
        ({ st0 with width := 0 } : LexState).rest ++ [] := by simp
    have hinv1 := shift_inv h0 _ [] hrs
    split
    · -- pos > start : emit Text then EOF
      refine ⟨?_, ?_⟩
      · intro t ht _
        rcases List.mem_cons.mp ht with rfl | ht2
        · apply mkItem_ok
          exact hinv1
        · rcases List.mem_cons.mp ht2 with rfl | ht3
          · apply mkItem_ok
            exact afterEmit_inv hinv1
          · exact absurd ht3 (List.not_mem_nil t)
      · intro f' st' hsome
        cases hsome
    · -- only EOF
      refine ⟨?_, ?_⟩
      · intro t ht _
        rcases List.mem_cons.mp ht with rfl | ht2
        · apply mkItem_ok
          exact hinv1
        · exact absurd ht2 (List.not_mem_nil t)
      · intro f' st' hsome
        cases hsome
  · -- dropWhile = '{' :: tl2
    rename_i tl2 heq
    have hrs : ({ st0 with width := 0 } : LexState).rest =
        (({ st0 with width := 0 } : LexState).rest.takeWhile (· ≠ '{')) ++ ('{' :: tl2) := by
      conv_lhs => rw [← List.takeWhile_append_dropWhile (p := (· ≠ '{'))
        (l := ({ st0 with width := 0 } : LexState).rest)]
      rw [heq]
    have hinv1 := shift_inv h0 _ ('{' :: tl2) hrs
    split_ifs with h1 h2
    · -- HasPrefix {%
      obtain ⟨tl3, hr3⟩ := (startsWith2_iff _ _ _).mp h1
      exact lexTextEmitThen_ok hinv1 (fun st' hst' => ⟨tl3, by rw [hst']; exact hr3⟩)
    · -- HasPrefix {{
      obtain ⟨tl3, hr3⟩ := (startsWith2_iff _ _ _).mp h2
      exact lexTextEmitThen_ok hinv1 (fun st' hst' => ⟨tl3, by rw [hst']; exact hr3⟩)
    · -- lexical error before any text is emitted
      refine ⟨?_, ?_⟩
      · intro t ht hne
        rcases List.mem_cons.mp ht with rfl | ht2
        · exact absurd rfl hne
        · exact absurd ht2 (List.not_mem_nil t)
      · intro f' st' hsome
        cases hsome
  · -- impossible arm (dropWhile head must be '{'), vacuously fine
    refine ⟨?_, ?_⟩
    · intro t ht _
      exact absurd ht (List.not_mem_nil t)
    · intro f' st' hsome
      cases hsome

theorem emit_then_inside_ok {input : List Char} {st5 : LexState} (h5 : LexInv input st5)
    (t : ItemType) :
    StepOk input ([mkItem t st5], some (.lexInsideTag, afterEmit st5)) := by
  refine ⟨?_, ?_⟩
  · intro t' ht' _
    rcases List.mem_cons.mp ht' with rfl | ht2
    · exact mkItem_ok input _ h5 _
    · exact absurd ht2 (List.not_mem_nil t')
  · intro f' st' hsome
    injection hsome with hfs
    injection hfs with hf hst
    subst hf; subst hst
    exact ⟨afterEmit_inv h5, trivial⟩

theorem invIte {input : List Char} (b : Bool) {x y : LexState}
    (hx : LexInv input x) (hy : LexInv input y) :
    LexInv input (if b then x else y) := by
  cases b
  · simpa using hy
  · simpa using hx

theorem invIteP {input : List Char} (c : Prop) [Decidable c] {x y : LexState}
    (hx : LexInv input x) (hy : LexInv input y) :
    LexInv input (if c then x else y) := by
  split
  · exact hx
  · exact hy

theorem lexIdentifierGo_ok {input : List Char} :
    ∀ (l : List Char) (st : LexState), st.rest = l → LexInv input st →
    StepOk input (lexIdentifierGo l st) := by
  intro l
  induction l with
  | nil =>
    intro st _ _
    refine ⟨?_, ?_⟩
    · intro t ht hne
      rcases List.mem_cons.mp ht with rfl | ht2
      · exact absurd rfl hne
      · exact absurd ht2 (List.not_mem_nil t)
    · intro f' st' hsome
      cases hsome
  | cons c tl ih =>
    intro st hrest h
    rw [lexIdentifierGo]
    split_ifs with h1 h2
    · exact emit_then_inside_ok h _
    · exact ih (consumeC c tl st) rfl (consumeC_inv h c tl hrest)
    · refine ⟨?_, ?_⟩
      · intro t ht hne
        rcases List.mem_cons.mp ht with rfl | ht2
        · exact absurd rfl hne
        · exact absurd ht2 (List.not_mem_nil t)
      · intro f' st' hsome
        cases hsome

theorem lexIdentifierStep_ok {input : List Char} {st : LexState} (h : LexInv input st) :
    StepOk input (lexIdentifierStep st) :=
  lexIdentifierGo_ok st.rest st rfl h

theorem lexQuoteGo_ok {input : List Char} (q : Char) :
    ∀ (n : Nat) (l : List Char) (st : LexState), l.length ≤ n → st.rest = l →
    LexInv input st → StepOk input (lexQuoteGo q l st) := by
  intro n
  induction n with
  | zero =>
    intro l st hlen hrest h
    have : l = [] := List.length_eq_zero.mp (Nat.le_zero.mp hlen)
    subst this
    refine ⟨?_, ?_⟩
    · intro t ht hne
      rcases List.mem_cons.mp ht with rfl | ht2
      · exact absurd rfl hne
      · exact absurd ht2 (List.not_mem_nil t)
    · intro f' st' hsome
      cases hsome
  | succ n ih =>
    intro l st hlen hrest h
    match l, hrest with
    | [], hrest =>
      refine ⟨?_, ?_⟩
      · intro t ht hne
        rcases List.mem_cons.mp ht with rfl | ht2
        · exact absurd rfl hne
        · exact absurd ht2 (List.not_mem_nil t)
      · intro f' st' hsome
        cases hsome
    | c :: tl, hrest =>
      rw [lexQuoteGo.eq_def]
      dsimp only
      split_ifs with h1 h2 h3
      · -- c = '\\'
        match tl with
        | [] =>
          refine ⟨?_, ?_⟩
          · intro t ht hne
            rcases List.mem_cons.mp ht with rfl | ht2
            · exact absurd rfl hne
            · exact absurd ht2 (List.not_mem_nil t)
          · intro f' st' hsome
            cases hsome
        | r :: tl2 =>
          dsimp only
          split_ifs with h4
          · refine ⟨?_, ?_⟩
            · intro t ht hne
              rcases List.mem_cons.mp ht with rfl | ht2
              · exact absurd rfl hne
              · exact absurd ht2 (List.not_mem_nil t)
            · intro f' st' hsome
              cases hsome
          · have hlen2 : tl2.length ≤ n := by
              simp only [List.length_cons] at hlen
              omega
            exact ih tl2 _ hlen2 rfl
              (consumeC_inv (consumeC_inv h c (r :: tl2) hrest) r tl2 rfl)
      · -- c = '\n'
        refine ⟨?_, ?_⟩
        · intro t ht hne
          rcases List.mem_cons.mp ht with rfl | ht2
          · exact absurd rfl hne
          · exact absurd ht2 (List.not_mem_nil t)
        · intro f' st' hsome
          cases hsome
      · -- c = q : closing quote, emit String
        exact emit_then_inside_ok (consumeC_inv h c tl hrest) _
      · -- ordinary rune
        have hlen2 : tl.length ≤ n := by
          simp only [List.length_cons] at hlen
          omega
        exact ih tl _ hlen2 rfl (consumeC_inv h c tl hrest)

theorem lexQuoteLoop_ok {input : List Char} (q : Char) {st : LexState}
    (h : LexInv input st) : StepOk input (lexQuoteLoop q st) :=
  lexQuoteGo_ok q st.rest.length st.rest st le_rfl rfl h

theorem lexNumberTail_ok {input : List Char} (digits : List Char) {stp : LexState}
    (h : LexInv input stp) : StepOk input (lexNumberTail digits stp) := by
  unfold lexNumberTail
  rcases hD : acceptF ['.'] (acceptRunF digits stp) with ⟨dot, std⟩
  have hstd : LexInv input std := by
    have t := acceptF_inv (acceptRunF_inv h digits) ['.']
    rwa [hD] at t
  try simp only [hD]
  apply emit_then_inside_ok
  have h3 : LexInv input (if dot = true then acceptRunF digits std else std) :=
    invIte dot (acceptRunF_inv hstd digits) hstd
  set ST3 := if dot = true then acceptRunF digits std else std with hST3
  rcases hE : acceptF ['e', 'E'] ST3 with ⟨be, se⟩
  have hse : LexInv input se := by
    have t := acceptF_inv h3 ['e', 'E']
    rwa [hE] at t
  clear hE
  cases be <;> dsimp only
  case false =>
    have h4 : LexInv input (if digits.length = 10 + 1 then se else ST3) :=
      invIteP _ hse h3
    rcases hP2 : acceptF ['p', 'P'] (if digits.length = 10 + 1 then se else ST3)
      with ⟨bp, sp⟩
    have hsp : LexInv input sp := by
      have t := acceptF_inv h4 ['p', 'P']
      rwa [hP2] at t
    try simp only [hP2]
    cases bp <;> dsimp only
    case false => exact invIteP _ hsp h4
    case true => exact invIteP _ (acceptRunF_inv (acceptF_inv hsp ['+', '-']) _) h4
  case true =>
    have hY : LexInv input (acceptRunF "0123456789_".data (acceptF ['+', '-'] se).2) :=
      acceptRunF_inv (acceptF_inv hse ['+', '-']) _
    have h4 : LexInv input (if digits.length = 10 + 1 then
        acceptRunF "0123456789_".data (acceptF ['+', '-'] se).2 else ST3) :=
      invIteP _ hY h3
    rcases hP2 : acceptF ['p', 'P'] (if digits.length = 10 + 1 then
        acceptRunF "0123456789_".data (acceptF ['+', '-'] se).2 else ST3)
      with ⟨bp, sp⟩
    have hsp : LexInv input sp := by
      have t := acceptF_inv h4 ['p', 'P']
      rwa [hP2] at t
    try simp only [hP2]
    cases bp <;> dsimp only
    case false => exact invIteP _ hsp h4
    case true => exact invIteP _ (acceptRunF_inv (acceptF_inv hsp ['+', '-']) _) h4

theorem lexNumberStep_ok {input : List Char} {st0 : LexState} (h : LexInv input st0) :
    StepOk input (lexNumberStep st0) := by
  unfold lexNumberStep
  rcases hA : acceptF ['+', '-'] st0 with ⟨b1, s1⟩
  have h1 : LexInv input s1 := by
    have t := acceptF_inv h ['+', '-']
    rwa [hA] at t
  dsimp only
  rcases hB : acceptF ['0'] s1 with ⟨z, sz⟩
  have h2 : LexInv input sz := by
    have t := acceptF_inv h1 ['0']
    rwa [hB] at t
  dsimp only
  cases z
  case false =>
    rw [if_neg (by decide : ¬(false = true))]
    dsimp only
    exact lexNumberTail_ok decDigits h2
  case true =>
    rw [if_pos rfl]
    rcases hX : acceptF ['x', 'X'] sz with ⟨bx, sx⟩
    have hx : LexInv input sx := by
      have t := acceptF_inv h2 ['x', 'X']
      rwa [hX] at t
    cases bx <;> dsimp only
    case true => exact lexNumberTail_ok hexDigits hx
    case false =>
      rcases hO : acceptF ['o', 'O'] sx with ⟨bo, so⟩
      have ho : LexInv input so := by
        have t := acceptF_inv hx ['o', 'O']
        rwa [hO] at t
      cases bo <;> dsimp only
      case true => exact lexNumberTail_ok octDigits ho
      case false =>
        rcases hBn : acceptF ['b', 'B'] so with ⟨bb, sb2⟩
        have hb : LexInv input sb2 := by
          have t := acceptF_inv ho ['b', 'B']
          rwa [hBn] at t
        cases bb <;> dsimp only
        case true => exact lexNumberTail_ok binDigits hb
        case false => exact lexNumberTail_ok decDigits hb

theorem errStepOk {input msg : List Char} {st1 : LexState} :
    StepOk input ([errItem msg st1], none) := by
  refine ⟨?_, ?_⟩
  · intro t ht hne
    rcases List.mem_cons.mp ht with rfl | ht2
    · exact absurd rfl hne
    · exact absurd ht2 (List.not_mem_nil t)
  · intro f' st' hsome
    cases hsome

theorem goStepOk {input : List Char} {f : LexFn} {st1 : LexState}
    (hinv : LexInv input st1) (hg : stGuard f st1) :
    StepOk input ([], some (f, st1)) := by
  refine ⟨?_, ?_⟩
  · intro t ht _
    exact absurd ht (List.not_mem_nil t)
  · intro f' st' hsome
    injection hsome with hfs
    injection hfs with hf hst
    subst hf; subst hst
    exact ⟨hinv, hg⟩

theorem lexInsideTagStep_ok {input : List Char} {st : LexState} (h : LexInv input st) :
    StepOk input (lexInsideTagStep st) := by
  unfold lexInsideTagStep
  by_cases hA : startsWith2 '%' '}' st.rest = true
  · rw [if_pos hA]
    by_cases hp : st.parenDepth > 0
    · rw [if_pos hp]; exact errStepOk
    · rw [if_neg hp]
      exact goStepOk h ((startsWith2_iff _ _ _).mp hA)
  rw [if_neg hA]
  by_cases hB : startsWith2 '}' '}' st.rest = true
  · rw [if_pos hB]
    by_cases hp : st.parenDepth > 0
    · rw [if_pos hp]; exact errStepOk
    · rw [if_neg hp]
      exact goStepOk h ((startsWith2_iff _ _ _).mp hB)
  rw [if_neg hB]
  rcases hrest : st.rest with _ | ⟨c, tl⟩
  · exact errStepOk
  dsimp only
  by_cases hEol : isEndOfLine c = true
  · rw [if_pos hEol]; exact errStepOk
  rw [if_neg hEol]
  by_cases hSp : isSpace c = true
  · rw [if_pos hSp]
    exact goStepOk (ignoreF_inv (consumeC_inv h c tl hrest)) trivial
  rw [if_neg hSp]
  by_cases hBang : c = '!'
  · rw [if_pos hBang]
    rcases tl with _ | ⟨d, tl2⟩
    · exact errStepOk
    dsimp only
    by_cases hd : d = '='
    · rw [if_pos hd]
      exact emit_then_inside_ok
        (consumeC_inv (consumeC_inv h c _ hrest) d tl2 (consumeC_rest c _ st)) _
    · rw [if_neg hd]; exact errStepOk
  rw [if_neg hBang]
  by_cases hGL : (c = '>' || c = '<') = true
  · rw [if_pos hGL]
    rcases tl with _ | ⟨d, tl2⟩
    · exact emit_then_inside_ok (consumeC_inv h c _ hrest) _
    dsimp only
    by_cases hd : d = '='
    · rw [if_pos hd]
      exact emit_then_inside_ok
        (consumeC_inv (consumeC_inv h c _ hrest) d tl2 (consumeC_rest c _ st)) _
    · rw [if_neg hd]
      exact emit_then_inside_ok (consumeC_inv h c _ hrest) _
  rw [if_neg hGL]
  by_cases hEq : c = '='
  · rw [if_pos hEq]
    rcases tl with _ | ⟨d, tl2⟩
    · exact emit_then_inside_ok (consumeC_inv h c _ hrest) _
    dsimp only
    by_cases hd : d = '='
    · rw [if_pos hd]
      exact emit_then_inside_ok
        (consumeC_inv (consumeC_inv h c _ hrest) d tl2 (consumeC_rest c _ st)) _
    · rw [if_neg hd]
      exact emit_then_inside_ok (consumeC_inv h c _ hrest) _
  rw [if_neg hEq]
  by_cases hPipe : c = '|'
  · rw [if_pos hPipe]
    exact emit_then_inside_ok (consumeC_inv h c _ hrest) _
  rw [if_neg hPipe]
  by_cases hDq : c = '"'
  · rw [if_pos hDq]
    exact goStepOk (consumeC_inv h c _ hrest) trivial
  rw [if_neg hDq]
  by_cases hSq : c = '\''
  · rw [if_pos hSq]
    exact goStepOk (consumeC_inv h c _ hrest) trivial
  rw [if_neg hSq]
  by_cases hNum : (c = '+' || c = '-' || ('0' ≤ c && c ≤ '9')) = true
  · rw [if_pos hNum]
    exact goStepOk h trivial
  rw [if_neg hNum]
  by_cases hAl : isAlphaNumeric c = true
  · rw [if_pos hAl]
    exact goStepOk h trivial
  rw [if_neg hAl]
  by_cases hLp : c = '('
  · rw [if_pos hLp]
    refine ⟨?_, ?_⟩
    · intro t ht hne
      rcases List.mem_cons.mp ht with rfl | ht2
      · exact mkItem_ok input _ (consumeC_inv h c tl hrest) _
      · exact absurd ht2 (List.not_mem_nil t)
    · intro f' st' hsome
      injection hsome with hfs
      injection hfs with hf hst
      subst hf; subst hst
      exact ⟨inv_of_fields (afterEmit_inv (consumeC_inv h c tl hrest)) rfl rfl rfl rfl,
        trivial⟩
  rw [if_neg hLp]
  by_cases hRp : c = ')'
  · rw [if_pos hRp]
    split_ifs with hlt
    · refine ⟨?_, ?_⟩
      · intro t ht hne
        rcases List.mem_cons.mp ht with rfl | ht2
        · exact mkItem_ok input _ (consumeC_inv h c tl hrest) _
        · rcases List.mem_cons.mp ht2 with rfl | ht3
          · exact absurd rfl hne
          · exact absurd ht3 (List.not_mem_nil t)
      · intro f' st' hsome
        cases hsome
    · refine ⟨?_, ?_⟩
      · intro t ht hne
        rcases List.mem_cons.mp ht with rfl | ht2
        · exact mkItem_ok input _ (consumeC_inv h c tl hrest) _
        · exact absurd ht2 (List.not_mem_nil t)
      · intro f' st' hsome
        injection hsome with hfs
        injection hfs with hf hst
        subst hf; subst hst
        exact ⟨inv_of_fields (afterEmit_inv (consumeC_inv h c tl hrest)) rfl rfl rfl rfl,
        trivial⟩
  rw [if_neg hRp]
  by_cases hAscii : (c.toNat ≤ 127 && 32 ≤ c.toNat && c.toNat ≤ 126) = true
  · rw [if_pos hAscii]
    exact emit_then_inside_ok (consumeC_inv h c _ hrest) _
  · rw [if_neg hAscii]
    exact errStepOk

theorem stepLex_ok {input : List Char} (f : LexFn) {st : LexState}
    (h : LexInv input st) (hg : stGuard f st) : StepOk input (stepLex f st) := by
  cases f
  case lexText => exact lexTextStep_ok h
  case lexTagStart => exact lexTagStartStep_ok h hg
  case lexTagEnd => exact lexTagEndStep_ok h hg
  case lexVarStart => exact lexVarStartStep_ok h hg
  case lexVarEnd => exact lexVarEndStep_ok h hg
  case lexInsideTag => exact lexInsideTagStep_ok h
  case lexNumber => exact lexNumberStep_ok h
  case lexQuote => exact lexQuoteLoop_ok '"' h
  case lexSingleQuote => exact lexQuoteLoop_ok '\'' h
  case lexIdentifier => exact lexIdentifierStep_ok h

theorem runLex_ok {input : List Char} :
    ∀ (fuel : Nat) (f : LexFn) (st : LexState), LexInv input st → stGuard f st →
    ∀ t ∈ runLex fuel f st, t.typ ≠ ItemError → TokOk input t := by
  intro fuel
  induction fuel with
  | zero =>
    intro f st _ _ t ht
    exact absurd ht (List.not_mem_nil t)
  | succ n ih =>
    intro f st hinv hg t ht hne
    have hstep := stepLex_ok f hinv hg
    rcases ho : stepLex f st with ⟨out, orest⟩
    rw [ho] at hstep
    rcases orest with _ | ⟨f2, st2⟩
    · have hrun : runLex (n + 1) f st = out := by
        conv_lhs => unfold runLex
        rw [ho]
      rw [hrun] at ht
      exact hstep.1 t ht hne
    · have hrun : runLex (n + 1) f st = out ++ runLex n f2 st2 := by
        conv_lhs => unfold runLex
        rw [ho]
      rw [hrun] at ht
      rcases List.mem_append.mp ht with h1 | h2
      · exact hstep.1 t h1 hne
      · obtain ⟨hinv2, hg2⟩ := hstep.2 f2 st2 rfl
        exact ih f2 st2 hinv2 hg2 t h2 hne

/-- Position integrity of the whole lexer, for every input and any fuel
bound: each non-error token `t` the state machine emits satisfies
`utf8Len t.val ≤ t.pos ≤ utf8Len input`, and slicing the input backwards
from the byte offset `t.pos` reproduces exactly the token's value.  (The
tokens thus carry their **end** offset, refuting the "starting position"
reading of the `Pos` field's doc comment.) -/
theorem lexer_pos_integrity (input : List Char) (fuel : Nat) :
    ∀ t ∈ runLex fuel .lexText (initLex input), t.typ ≠ ItemError →
      utf8Len t.val ≤ t.pos ∧ t.pos ≤ utf8Len input ∧
      byteSlice input (t.pos - utf8Len t.val) t.pos = t.val := by
  intro t ht hne
  exact runLex_ok fuel .lexText (initLex input) ⟨[], rfl, rfl, rfl⟩ trivial t ht hne

end Xt
